import Mathlib

/-!
Verification of the expanding-tokenizer engine (a variable- and
arithmetic-expansion lexer).  The Python sources are shallowly embedded:

* `source.py`    → `Expanding.Reader` (line-buffered reader with bounded unget)
* `variable.py`  → `Expanding.getNameLoop` / environment lookup
* `expand.py`    → the `Engine` record of mutually recursive fueled functions
* `math.py`      → the math tokenizer / operator-precedence reduction, also
  inside `Engine`, plus the pure `MathTree` evaluator
* `tokenizer.py` → the `Lexer` record (token production and `tokens_are`)

The mutual recursion of the Python code (expansion ↔ arithmetic ↔ lexer) is
made total with a fuel discipline: `engineF (f+1)` is one layer of each
function body whose every internal call goes through `engineF f`; running out
of fuel is the distinguished error `Err.fuel`.  Machine integers do not occur
(Python ints are unbounded) except in `pyIntTrueDiv`, which models the IEEE
double rounding performed by Python's true division `l / r`.
-/

namespace Expanding

/-- Characters written via code points so that quote characters never appear
as literals in the file. -/
def aposChar : Char := Char.ofNat 39

def dquoteChar : Char := Char.ofNat 34

def backslashChar : Char := Char.ofNat 92

/-- Python `str.isspace` restricted to the ASCII whitespace characters the
inputs of this development use: space, tab, newline, carriage return,
vertical tab, form feed. -/
def pyIsSpace (c : Char) : Bool :=
  c = ' ' || c = Char.ofNat 9 || c = Char.ofNat 10 || c = Char.ofNat 13 ||
  c = Char.ofNat 11 || c = Char.ofNat 12

/-- Python `str.isalnum` restricted to ASCII letters and digits. -/
def pyIsAlnum (c : Char) : Bool :=
  c.isAlpha || c.isDigit

/-- Characters allowed in a variable name: `str.isalnum(c) or c is aq_` from
`variable.py` `EnvironmentVariable.get_name`. -/
def isNameChar (c : Char) : Bool :=
  pyIsAlnum c || c = Char.ofNat 95

/-- Errors.  Python raises exceptions carrying messages and locations; only
the fact of failure matters for the claims, so the payloads are dropped.
`fuel` is the artifact of the fuel discipline, `typeError` models Python
`TypeError`/`ValueError`-style crashes on unreachable paths. -/
inductive Err where
  | fuel
  | eofErr
  | noName
  | unresolved
  | unknownQuote
  | notADuration
  | notANumber
  | unexpectedToken
  | unexpectedChar
  | expectedBrace
  | stackErr
  | typeError
  | ungetUnderflow
  | divByZero
  | overflow
  | wsInSection
  | danglingOpt
  deriving DecidableEq, Repr

/-! ## Reader (`source.py`) -/

/-- One buffered line: Python stores `[real_line_number] ++ characters`; the
line number is kept in its own field, so the Python index `pos` corresponds
to `chars[pos - 1]` and Python's `len(buffer[line])` is `pyLen`. -/
structure Line where
  num : Nat
  chars : List Char
  deriving DecidableEq, Repr

/-- Python `len(self._buffer[i])`: the line-number cell plus the characters. -/
def pyLen (l : Line) : Nat := l.chars.length + 1

/-- The `Reader` state: `source` is the list of lines `readline` has not yet
delivered (each nonempty, ending in a newline except possibly the last);
`pos` is the Python cursor (`-1` of the empty-input initial state is encoded
as `0`, which is never read). -/
structure Reader where
  source : List (List Char)
  buffer : List Line
  line : Nat
  realLine : Nat
  pos : Nat
  eofFlag : Bool
  deriving DecidableEq, Repr

/-- The buffered line the cursor is on (`self._buffer[self._line]`). -/
def Reader.curLine (r : Reader) : Line := r.buffer.getD r.line ⟨0, []⟩

/-- Python `Reader.eof`. -/
def Reader.eofQ (r : Reader) : Bool :=
  r.eofFlag &&
    (decide (r.buffer.length ≤ r.line) ||
      (r.line + 1 == r.buffer.length && r.pos == pyLen r.curLine))

/-- Python trims the window with `while len(buffer) > 2: buffer = buffer[1:]`,
which drops all but the last two lines. -/
def trimTo2 (l : List Line) : List Line := l.drop (l.length - 2)

/-- Python `Reader._read_line`: append the next source line to the window
(evicting old lines), or set the EOF flag when the source is exhausted. -/
def Reader.readLine (r : Reader) : Reader :=
  if r.eofQ then r
  else
    match r.source with
    | [] => { r with eofFlag := true }
    | l :: rest =>
      let buf := trimTo2 r.buffer
      { r with
        source := rest
        buffer := buf ++ [⟨r.realLine + 1, l⟩]
        line := buf.length
        realLine := r.realLine + 1
        pos := 1 }

/-- Python `Reader.get`: `none` at EOF, otherwise the character under the
cursor, advancing across line boundaries and refilling the window.  The
`getD` default is unreachable for readers built by `Reader.ofString` (the
cursor invariant keeps `pos - 1` inside the line). -/
def Reader.get (r : Reader) : Option Char × Reader :=
  if r.eofQ then (none, r)
  else
    let ln := r.curLine
    let c := ln.chars.getD (r.pos - 1) ' '
    let r1 := { r with pos := r.pos + 1 }
    let r2 :=
      if r1.pos == pyLen ln then
        if r1.line + 1 == r1.buffer.length then r1.readLine
        else { r1 with pos := 1, line := r1.line + 1 }
      else r1
    (some c, r2)

/-- Python `Reader.unget`; `none` models the `BufferError` raised on an unget
beyond the buffered window. -/
def Reader.unget (r : Reader) : Option Reader :=
  if r.pos ≤ 1 then
    if r.line = 0 then none
    else
      some { r with
        line := r.line - 1
        pos := pyLen (r.buffer.getD (r.line - 1) ⟨0, []⟩) - 1 }
  else some { r with pos := r.pos - 1 }

/-- Split a character stream the way repeated `readline` does: each returned
chunk ends with a newline, except possibly the last. -/
def splitLinesAux : List Char → List Char → List (List Char)
  | [], acc => if acc.isEmpty then [] else [acc.reverse]
  | c :: cs, acc =>
    if c = Char.ofNat 10 then (acc.reverse ++ [Char.ofNat 10]) :: splitLinesAux cs []
    else splitLinesAux cs (c :: acc)

def splitLines (cs : List Char) : List (List Char) := splitLinesAux cs []

/-- Python `Reader.__init__` (line `-1` cursor encoded as `0`, then one
`_read_line`). -/
def Reader.ofLines (ls : List (List Char)) : Reader :=
  Reader.readLine
    { source := ls, buffer := [], line := 0, realLine := 0, pos := 0, eofFlag := false }

def Reader.ofString (s : String) : Reader := Reader.ofLines (splitLines s.toList)

/-- Hex digit value, or `none`. -/
def hexVal (c : Char) : Option Nat :=
  if c.isDigit then some (c.toNat - 48)
  else if 97 ≤ c.toNat ∧ c.toNat ≤ 102 then some (c.toNat - 87)
  else if 65 ≤ c.toNat ∧ c.toNat ≤ 70 then some (c.toNat - 55)
  else none

def hexValList (cs : List Char) : Option Nat :=
  cs.foldl (fun acc c => do let a ← acc; let v ← hexVal c; some (a * 16 + v)) (some 0)

def octVal (c : Char) : Option Nat :=
  if 48 ≤ c.toNat ∧ c.toNat ≤ 55 then some (c.toNat - 48) else none

def octValList (cs : List Char) : Option Nat :=
  cs.foldl (fun acc c => do let a ← acc; let v ← octVal c; some (a * 8 + v)) (some 0)

/-- Python `Reader.get_quoted`: one escape code after a backslash.  `n r t`
map to control characters, `u` plus four hex digits and a leading octal digit
`0`-`3` plus two more digits map to code points, anything else is returned
verbatim.  EOF inside the escape, or non-hex/octal digits, raise. -/
def Reader.getQuoted (r : Reader) : Except Err (Char × Reader) := do
  let (c?, r) := r.get
  match c? with
  | none => .error .eofErr
  | some c =>
    if c = 'n' then .ok (Char.ofNat 10, r)
    else if c = 'r' then .ok (Char.ofNat 13, r)
    else if c = 't' then .ok (Char.ofNat 9, r)
    else if c = 'u' then
      let (c1?, r) := r.get
      let (c2?, r) := r.get
      let (c3?, r) := r.get
      let (c4?, r) := r.get
      match c1?, c2?, c3?, c4? with
      | some c1, some c2, some c3, some c4 =>
        match hexValList [c1, c2, c3, c4] with
        | some v => .ok (Char.ofNat v, r)
        | none => .error .typeError
      | _, _, _, _ => .error .eofErr
    else if c.isDigit ∧ c.toNat ≤ 51 then
      let (c1?, r) := r.get
      let (c2?, r) := r.get
      match c1?, c2? with
      | some c1, some c2 =>
        match octValList [c, c1, c2] with
        | some v => .ok (Char.ofNat v, r)
        | none => .error .typeError
      | _, _ => .error .eofErr
    else .ok (c, r)

/-! ## Variables (`variable.py`) -/

/-- The backing dictionary of `EnvironmentVariable`. -/
def Env : Type := List (String × String)

def lookupEnv (env : Env) (name : String) : Option String :=
  List.lookup name env

/-! ## Quote functions and durations (`expand.py`) -/

/-- Python `Expansion.TO_MILLISECONDS_SCALE`. -/
def TO_MILLISECONDS_SCALE : List (String × Nat) :=
  [("", 1), ("ms", 1), ("s", 1000), ("m", 60000), ("h", 3600000), ("d", 86400000)]

/-- Python `Expansion.TO_SECONDS_SCALE`. -/
def TO_SECONDS_SCALE : List (String × Nat) :=
  [("", 1), ("s", 1), ("m", 60), ("h", 3600), ("d", 86400)]

/-- The unit suffixes accepted by the regex `TO_MILLISECONDS`,
`^([1-9][0-9]*)(|h|ms?|s)$`: the alternation matches the empty string, `h`,
`m`, `ms` and `s` (note: no `d`). -/
def msRegexUnits : List String := ["", "h", "m", "ms", "s"]

/-- The unit suffixes accepted by the regex `TO_SECONDS`,
`^([1-9][0-9]*)(|h|m|s)$` (note: no `d`). -/
def secRegexUnits : List String := ["", "h", "m", "s"]

def digitsToNat (cs : List Char) : Nat :=
  cs.foldl (fun a c => a * 10 + (c.toNat - 48)) 0

/-- Full-anchored match of `([1-9][0-9]*)(<unit>)`: a nonzero-leading digit
run followed by one of the allowed unit suffixes; returns the two groups. -/
def durationCore (allowed : List String) (cs : List Char) : Option (Nat × String) :=
  match cs with
  | [] => none
  | c :: _ =>
    if c.isDigit ∧ c ≠ '0' then
      let digits := cs.takeWhile Char.isDigit
      let sfx := String.mk (cs.dropWhile Char.isDigit)
      if allowed.contains sfx then some (digitsToNat digits, sfx) else none
    else none

/-- Python `re` lets `$` also match just before one final newline, so the
regex accepts an optional single trailing newline. -/
def durationMatch (allowed : List String) (cs : List Char) : Option (Nat × String) :=
  match durationCore allowed cs with
  | some g => some g
  | none =>
    if cs.getLast? = some (Char.ofNat 10) then durationCore allowed cs.dropLast
    else none

/-- Python `Expansion.to_milliseconds`: match against `TO_MILLISECONDS`,
raise not-a-duration on mismatch, otherwise scale by
`TO_MILLISECONDS_SCALE[unit]` and render as decimal text. -/
def to_milliseconds (s : String) : Except Err String :=
  match durationMatch msRegexUnits s.toList with
  | none => .error .notADuration
  | some (n, u) =>
    match List.lookup u TO_MILLISECONDS_SCALE with
    | some k => .ok (toString (n * k))
    | none => .error .typeError

/-- Python `Expansion.to_seconds`. -/
def to_seconds (s : String) : Except Err String :=
  match durationMatch secRegexUnits s.toList with
  | none => .error .notADuration
  | some (n, u) =>
    match List.lookup u TO_SECONDS_SCALE with
    | some k => .ok (toString (n * k))
    | none => .error .typeError

/-- `xml.sax.saxutils.escape`: replace `&`, then `>`, then `<`. -/
def saxEscape (s : String) : String :=
  ((s.replace "&" "&amp;").replace ">" "&gt;").replace "<" "&lt;"

/-- `saxutils.escape` with the extra `attr` entity for the double quote. -/
def saxEscapeAttr (s : String) : String :=
  (saxEscape s).replace (String.singleton dquoteChar) "&quot;"

def uriUnreservedByte (b : Nat) : Bool :=
  (65 ≤ b ∧ b ≤ 90) || (97 ≤ b ∧ b ≤ 122) || (48 ≤ b ∧ b ≤ 57) ||
  b = 95 || b = 46 || b = 45 || b = 126

def hexDigitUpper (n : Nat) : Char :=
  if n < 10 then Char.ofNat (48 + n) else Char.ofNat (55 + n)

/-- `urllib.parse.quote_plus` over the UTF-8 encoding: unreserved bytes kept,
space becomes `+`, everything else percent-encoded in uppercase hex. -/
def uriQuotePlus (s : String) : String :=
  String.mk <| (s.toUTF8.toList.map UInt8.toNat).foldr
    (fun b acc =>
      if uriUnreservedByte b then Char.ofNat b :: acc
      else if b = 32 then '+' :: acc
      else '%' :: hexDigitUpper (b / 16) :: hexDigitUpper (b % 16) :: acc)
    []

def sqlQuote (s : String) : String :=
  s.replace (String.singleton aposChar) (String.mk [aposChar, aposChar])

/-- A registered quote function: text in, quoted text or failure out (the
`At` argument of the Python functions is only used in error messages and is
dropped). -/
def QuoteFun : Type := String → Except Err String

/-- The quote registry (`self.quotes`). -/
def Quotes : Type := List (String × QuoteFun)

/-- Python `Expansion.DEFAULT_QUOTES`. -/
def DEFAULT_QUOTES : Quotes :=
  [("ms", to_milliseconds),
   ("s", to_seconds),
   ("xml", fun s => .ok (saxEscape s)),
   ("attr", fun s => .ok (saxEscapeAttr s)),
   ("uri", fun s => .ok (uriQuotePlus s)),
   ("sql", fun s => .ok (sqlQuote s))]

/-! ## Math (`math.py`) -/

inductive MathType where
  | LPAR | RPAR | ADD | SUB | MUL | DIV | MOD | MIN | MAX | NUMBER
  deriving DecidableEq, Repr

/-- Python `MathToken._PRECEDENCE` (`None` when the type has no entry). -/
def MathType.precedence : MathType → Option Nat
  | .RPAR => some 999
  | .MUL => some 1
  | .DIV => some 1
  | .MOD => some 1
  | .ADD => some 2
  | .SUB => some 2
  | .MIN => some 3
  | .MAX => some 3
  | _ => none

/-- A math token; `content` is the resolved integer of a `NUMBER` token
(`none` in speculative mode) and irrelevant for operators. -/
structure MathToken where
  ttype : MathType
  content : Option Int
  deriving DecidableEq, Repr

/-- Python `MathTokenizer._SINGLE_CHAR_TOKENS`. -/
def singleCharMathTokens : List (Char × MathType) :=
  [('(', .LPAR), (')', .RPAR), ('+', .ADD), ('-', .SUB), ('*', .MUL),
   ('/', .DIV), ('%', .MOD), ('<', .MIN), ('>', .MAX)]

/-- Python `MathTokenizer._IS_NUMBER` plus the `int(content, base)` calls of
`_as_int`: an optionally signed hex literal, an unsigned decimal literal with
nonzero leading digit, or an octal literal with leading `0`.  The sign is
only part of the hex alternative of the regex. -/
def asIntCore (cs : List Char) : Option Int :=
  let hex : Option Int :=
    let signed : Bool × List Char :=
      match cs with
      | '-' :: t => (true, t)
      | '+' :: t => (false, t)
      | _ => (false, cs)
    match signed.2 with
    | '0' :: x :: ds =>
      if (x = 'x' ∨ x = 'X') ∧ ds ≠ [] ∧ ds.all (fun c => (hexVal c).isSome) then
        (hexValList ds).map (fun v => if signed.1 then -(v : Int) else (v : Int))
      else none
    | _ => none
  match hex with
  | some v => some v
  | none =>
    match cs with
    | c :: ds =>
      if c.isDigit ∧ c ≠ '0' ∧ ds.all Char.isDigit then
        some ((digitsToNat (c :: ds) : Nat) : Int)
      else if c = '0' ∧ ds.all (fun d => (octVal d).isSome) then
        (octValList ds).map (fun v => ((v : Nat) : Int))
      else none
    | [] => none

/-- Python `MathTokenizer._as_int` (with the `$`-before-final-newline quirk
of the anchoring regex; `int(text, base)` itself tolerates the trailing
newline). -/
def asInt (s : String) : Option Int :=
  match asIntCore s.toList with
  | some v => some v
  | none =>
    if s.toList.getLast? = some (Char.ofNat 10) then asIntCore s.toList.dropLast
    else none

/-- Round `num / den` (positive rational) to the nearest integer, ties to
even — the rounding step of IEEE-754 double division. -/
def roundHalfEven (num den : Nat) : Nat :=
  let q := num / den
  let r := num % den
  if 2 * r > den then q + 1 else if 2 * r < den then q else q + q % 2

def geQPow (n d : Nat) (e : Int) : Bool :=
  if 0 ≤ e then decide (2 ^ e.toNat * d ≤ n) else decide (d ≤ n * 2 ^ (-e).toNat)

/-- Fueled `⌊log2⌋` (structural recursion so that the kernel can evaluate
it; the fuel `n` itself bounds the number of halvings). -/
def natLog2F : Nat → Nat → Nat
  | 0, _ => 0
  | fuel + 1, n => if n ≤ 1 then 0 else natLog2F fuel (n / 2) + 1

def natLog2 (n : Nat) : Nat := natLog2F n n

/-- `⌊log2 (n / d)⌋` for positive `n`, `d`. -/
def qExp (n d : Nat) : Int :=
  let c : Int := (natLog2 n : Int) - (natLog2 d : Int)
  if geQPow n d c then c else c - 1

/-- Python `int(l / r)` on arbitrary-precision integers: true division
computes the correctly rounded IEEE-754 double of the exact quotient
(`ZeroDivisionError` on `r = 0`, `OverflowError` when the rounded magnitude
reaches `2^1024`), then `int` truncates toward zero.  Subnormal clamping is
not modelled: for magnitudes below `2^-1022` the significand is still
rounded to 53 bits, which truncates to `0` exactly as the real double does. -/
def pyIntTrueDiv (l r : Int) : Except Err Int :=
  if r = 0 then .error .divByZero
  else
    let n := l.natAbs
    let d := r.natAbs
    if n = 0 then .ok 0
    else
      let e := qExp n d
      let s : Int := 52 - e
      let m0 := if 0 ≤ s then roundHalfEven (n * 2 ^ s.toNat) d
                else roundHalfEven n (d * 2 ^ (-s).toNat)
      let me : Nat × Int := if m0 = 2 ^ 53 then (2 ^ 52, e + 1) else (m0, e)
      if 1024 ≤ me.2 then .error .overflow
      else
        let mag : Nat :=
          if 52 ≤ me.2 then me.1 * 2 ^ (me.2 - 52).toNat
          else me.1 / 2 ^ (52 - me.2).toNat
        .ok (if (decide (l < 0)) ≠ (decide (r < 0)) then -(mag : Int) else (mag : Int))

/-- Python `MathExpr.OPERATIONS`: exact big-int add/sub/mul, `int(l / r)` for
division, floored modulo (Python `%`), native min/max. -/
def applyOp (op : MathType) (l r : Int) : Except Err Int :=
  match op with
  | .ADD => .ok (l + r)
  | .SUB => .ok (l - r)
  | .MUL => .ok (l * r)
  | .DIV => pyIntTrueDiv l r
  | .MOD => if r = 0 then .error .divByZero else .ok (Int.fmod l r)
  | .MIN => .ok (min l r)
  | .MAX => .ok (max l r)
  | _ => .error .typeError

/-- Expression tree (`MathValue` / `MathExpr`); a `value none` leaf is a
speculative-mode placeholder that is never evaluated. -/
inductive MathTree where
  | value (v : Option Int)
  | expr (op : MathType) (left right : MathTree)
  deriving DecidableEq, Repr

/-- Python `MathTree.get_value`: a pure recursive fold. -/
def getValue : MathTree → Except Err Int
  | .value (some v) => .ok v
  | .value none => .error .typeError
  | .expr op l r => do
    let a ← getValue l
    let b ← getValue r
    applyOp op a b

/-- The reduction loop of `_process_to_closing_parenthesis`:
`while operators and operators[-1].precedence() <= precedence: ...` with the
operand stack popped twice (right then left) per reduction.  Stack tops are
list heads. -/
def reduceStack (prec : Nat) :
    List MathToken → List MathTree → Except Err (List MathToken × List MathTree)
  | [], vals => .ok ([], vals)
  | op :: ops, vals =>
    match op.ttype.precedence with
    | none => .error .typeError
    | some p =>
      if p ≤ prec then
        match vals with
        | right :: left :: rest =>
          reduceStack prec ops (.expr op.ttype left right :: rest)
        | _ => .error .stackErr
      else .ok (op :: ops, vals)

def lbraceChar : Char := Char.ofNat 123

def rbraceChar : Char := Char.ofNat 125

/-- `for quote in quotes: value = self.quotes[quote](value, at)` — the
resolved value folded through the listed quote functions left to right
(`typeError` stands for the impossible `KeyError`; membership was already
checked when the list was parsed). -/
def applyQuotes (Q : Quotes) : List String → String → Except Err String
  | [], v => .ok v
  | q :: qs, v =>
    match List.lookup q Q with
    | none => .error .typeError
    | some f => do
      let v1 ← f v
      applyQuotes Q qs v1

/-! ## The expansion engine (`expand.py` + `math.py` tokenizer/parser)

One record field per Python function or `while` loop.  `engineF Q env (f+1)`
builds each body so that every internal call goes through the previous fuel
layer, so recursion is plain structural recursion on the fuel. -/

structure Engine where
  getNameLoop : Option String → Reader → Except Err (Option String × Reader)
  expand : Bool → Reader → Except Err (Option String × Reader)
  expandVariable : Bool → Reader → Except Err (Option String × Reader)
  quoteNameLoop : String → Reader → Except Err (String × Option Char × Reader)
  quoteListLoop : List String → Reader → Except Err (List String × Option Char × Reader)
  pucLoop : Bool → String → Reader → Except Err (String × Reader)
  expandMath : Bool → Reader → Except Err (Option String × Reader)
  procLoop : Bool → List MathToken → List MathTree → Reader → Except Err (MathTree × Reader)
  skipSubs : Bool → Bool → Reader → Except Err (Bool × MathToken × Reader)
  mathToken : Bool → Reader → Except Err (MathToken × Reader)
  alnumLoop : Bool → String → Reader → Except Err (MathToken × Reader)
  mathGet : Reader → Except Err (Char × Reader)

/-- Lines 145–160 of `_expand_variable`: read the character after the name
and, if it is a colon, collect the comma-separated quote-name list through
the given engine layer.  Returns the collected names, the terminating
character, and the reader. -/
def quoteScanE (prevE : Engine) (r : Reader) :
    Except Err (List String × Option Char × Reader) :=
  let (c?, r) := r.get
  if c? = some ':' then prevE.quoteListLoop [] r
  else .ok ([], c?, r)

/-- The out-of-fuel bottom layer. -/
def engineBot : Engine where
  getNameLoop := fun _ _ => .error .fuel
  expand := fun _ _ => .error .fuel
  expandVariable := fun _ _ => .error .fuel
  quoteNameLoop := fun _ _ => .error .fuel
  quoteListLoop := fun _ _ => .error .fuel
  pucLoop := fun _ _ _ => .error .fuel
  expandMath := fun _ _ => .error .fuel
  procLoop := fun _ _ _ _ => .error .fuel
  skipSubs := fun _ _ _ => .error .fuel
  mathToken := fun _ _ => .error .fuel
  alnumLoop := fun _ _ _ => .error .fuel
  mathGet := fun _ => .error .fuel

/-- One fuel layer of every function body, translated statement by statement
from the source. -/
def mkEngine (Q : Quotes) (env : Env) (prev : Engine) : Engine where
  /- `EnvironmentVariable.get_name` (`variable.py`): greedy `[A-Za-z0-9_]+`,
  the first non-matching character is ungot, `none` if nothing matched. -/
  getNameLoop := fun name r =>
    let (c?, r) := r.get
    match c? with
    | none => .ok (name, r)
    | some c =>
      if isNameChar c then
        match name with
        | none => prev.getNameLoop (some (String.singleton c)) r
        | some s => prev.getNameLoop (some (s.push c)) r
      else
        match r.unget with
        | none => .error .ungetUnderflow
        | some r => .ok (name, r)
  /- `Expansion.expand`: dispatch on the character after the dollar. -/
  expand := fun sr r =>
    let (c?, r) := r.get
    if c? = some lbraceChar then prev.expandVariable sr r
    else if c? = some '(' then prev.expandMath sr r
    else do
      let r ← match r.unget with
        | none => .error Err.ungetUnderflow
        | some r => .ok r
      let (name?, r) ← prev.getNameLoop none r
      let value? := name?.bind (lookupEnv env)
      if sr then
        match name? with
        | none => .error .noName
        | some _ =>
          match value? with
          | none => .error .unresolved
          | some v => .ok (some v, r)
      else .ok (value?, r)
  /- `Expansion._expand_variable`. -/
  expandVariable := fun sr r => do
    let (name?, r) ← prev.getNameLoop none r
    let value? := name?.bind (lookupEnv env)
    let (quotes, c?, r) ← quoteScanE prev r
    if c? = some '|' then do
      let (dflt, r) ← prev.pucLoop (sr && value?.isNone) "" r
      if sr then
        match value? with
        | some v => do
          let v1 ← applyQuotes Q quotes v
          .ok (some v1, r)
        | none => .ok (some dflt, r)
      else .ok (some "", r)
    else
      match c? with
      | none => .error .eofErr
      | some c =>
        if c ≠ rbraceChar then .error .expectedBrace
        else if sr then
          match name? with
          | none => .error .noName
          | some _ =>
            match value? with
            | none => .error .unresolved
            | some v => do
              let v1 ← applyQuotes Q quotes v
              .ok (some v1, r)
        else .ok (some "", r)
  /- Inner `while str.isalnum(c)` of the quote list: collects one quote name;
  `str.isalnum(None)` at EOF is a `TypeError`. -/
  quoteNameLoop := fun acc r =>
    let (c?, r) := r.get
    match c? with
    | none => .error .typeError
    | some c =>
      if pyIsAlnum c then prev.quoteNameLoop (acc.push c) r
      else .ok (acc, some c, r)
  /- Outer `while c is aq,aq` of `_expand_variable`: one quote name per pass,
  membership in the registry checked immediately. -/
  quoteListLoop := fun acc r => do
    let (q, c?, r) ← prev.quoteNameLoop "" r
    if (List.lookup q Q).isNone then .error .unknownQuote
    else
      let acc := acc ++ [q]
      if c? = some ',' then prev.quoteListLoop acc r
      else .ok (acc, c?, r)
  /- `Expansion._process_until_closing_bracket`: default-value body up to the
  closing brace, expanding `$` and backslash escapes. -/
  pucLoop := fun sr acc r =>
    let (c?, r) := r.get
    match c? with
    | none => .error .eofErr
    | some c =>
      if c = rbraceChar then .ok (acc, r)
      else if c = '$' then do
        let (v?, r) ← prev.expand sr r
        prev.pucLoop sr (acc ++ (v?.getD "")) r
      else if c = backslashChar then do
        let (q, r) ← r.getQuoted
        prev.pucLoop sr (acc.push q) r
      else prev.pucLoop sr (acc.push c) r
  /- `Expansion._expand_math`: parse to the closing parenthesis, then format
  the evaluated tree (speculatively: empty text, no evaluation). -/
  expandMath := fun sr r => do
    let (tree, r) ← prev.procLoop sr [] [] r
    if sr then do
      let v ← getValue tree
      .ok (some (toString v), r)
    else .ok (some "", r)
  /- `Expansion._process_to_closing_parenthesis`: operator-precedence
  reduction with explicit operand/operator stacks (list heads are tops). -/
  procLoop := fun sr ops vals r => do
    let (neg, tok, r) ← prev.skipSubs sr false r
    let (tree, r) ←
      if tok.ttype = .LPAR then prev.procLoop sr [] [] r
      else if tok.ttype = .NUMBER then .ok (MathTree.value tok.content, r)
      else .error .unexpectedToken
    let tree := if neg then MathTree.expr .SUB (.value (some 0)) tree else tree
    let vals := tree :: vals
    let (tok, r) ← prev.mathToken sr r
    match tok.ttype.precedence with
    | none => .error .unexpectedToken
    | some prec => do
      let sv ← reduceStack prec ops vals
      if tok.ttype = .RPAR then
        match sv.2 with
        | v :: _ => .ok (v, r)
        | [] => .error .stackErr
      else prev.procLoop sr (tok :: sv.1) sv.2 r
  /- `neg = False; while token.is_a(SUB): neg = not neg; token = token()`. -/
  skipSubs := fun sr neg r => do
    let (tok, r) ← prev.mathToken sr r
    if tok.ttype = .SUB then prev.skipSubs sr (!neg) r
    else .ok (neg, tok, r)
  /- `MathTokenizer.token` (`math.py`): single-character tokens, alphanumeric
  number runs, or a nested `$`-expansion coerced to a number (leading minus
  characters toggle a sign flag cumulatively). -/
  mathToken := fun sr r => do
    let (c, r) ← prev.mathGet r
    match List.lookup c singleCharMathTokens with
    | some t => .ok (⟨t, none⟩, r)
    | none =>
      if pyIsAlnum c then prev.alnumLoop sr (String.singleton c) r
      else if c = '$' then do
        let (content?, r) ← prev.expand sr r
        if sr then
          match content? with
          | none => .error .typeError
          | some content =>
            let stripped := content.toList.dropWhile (fun ch => ch = '-')
            let neg := (content.length - stripped.length) % 2 = 1
            match asInt (String.mk stripped) with
            | none => if neg then .error .typeError else .error .notANumber
            | some v => .ok (⟨.NUMBER, some (if neg then -v else v)⟩, r)
        else .ok (⟨.NUMBER, none⟩, r)
      else .error .unexpectedChar
  /- The alphanumeric run of `token` (note: `_get` skips whitespace, also
  inside the run, exactly as the source does). -/
  alnumLoop := fun sr acc r => do
    let (c, r) ← prev.mathGet r
    if pyIsAlnum c then prev.alnumLoop sr (acc.push c) r
    else do
      let r ← match r.unget with
        | none => .error Err.ungetUnderflow
        | some r => .ok r
      if sr then
        match asInt acc with
        | none => .error .notANumber
        | some v => .ok (⟨MathType.NUMBER, some v⟩, r)
      else .ok (⟨MathType.NUMBER, none⟩, r)
  /- `MathTokenizer._get`: skip whitespace, EOF raises. -/
  mathGet := fun r =>
    let (c?, r) := r.get
    match c? with
    | none => .error .eofErr
    | some c => if pyIsSpace c then prev.mathGet r else .ok (c, r)

/-- The engine at fuel `f`: `f` layers of `mkEngine` over the bottom. -/
def engineF (Q : Quotes) (env : Env) : Nat → Engine
  | 0 => engineBot
  | f + 1 => mkEngine Q env (engineF Q env f)

/-- `Expansion.expand` with explicit fuel. -/
def expandF (Q : Quotes) (env : Env) (f : Nat) (sr : Bool) (r : Reader) :
    Except Err (Option String × Reader) :=
  (engineF Q env f).expand sr r

/-- Run `expand` (with the default quote registry) on a source text whose
cursor sits right after the `$`, and report the expanded text together with
the next character under the cursor — the sentinel the repository's tests
use to check that the cursor ends up exactly past the construct. -/
def expandRes (s : String) (env : Env) (f : Nat) (sr : Bool) :
    Except Err (Option String × Option Char) := do
  let (v, r) ← expandF DEFAULT_QUOTES env f sr (Reader.ofString s)
  .ok (v, (r.get).1)

/-! ## Lexer (`tokenizer.py`) -/

inductive TokenType where
  | TEXT | EQ | DOT | COMMA | COLON | LPARENT | RPARENT | LBRACE | RBRACE
  | LBRACKET | RBRACKET | SEMICOLON | SECTION | NEWLINE | WHITESPACE
  | ADD | SUB | MUL | DIV | MOD | POW | AMP | LT | GT | QUESTION | EXCLAMATION
  | EOF | WORD | NUMBER | EOL | ANY_WHITESPACE | ANY | OPTIONAL
  deriving DecidableEq, Repr

inductive TokenWhitespace where
  | NONE | NEWLINE | WHITESPACE | BOTH
  deriving DecidableEq, Repr

structure Token where
  ttype : TokenType
  content : String
  deriving DecidableEq, Repr

instance : Inhabited Token := ⟨⟨.EOF, ""⟩⟩

/-- `Token._IS_NUMBER` has the same alternation as the math `_IS_NUMBER`
(sign only on the hex branch), so matching coincides with `asInt`
succeeding. -/
def isNumberText (s : String) : Bool := (asInt s).isSome

def isWordCore (cs : List Char) : Bool :=
  !cs.isEmpty && cs.all (fun c => !pyIsSpace c)

/-- `Token._IS_WORD` (`^\S+$`, with `$` also matching before one final
newline). -/
def isWordText (s : String) : Bool :=
  isWordCore s.toList ||
    (s.toList.getLast? = some (Char.ofNat 10) && isWordCore s.toList.dropLast)

/-- Python `Token.is_a`: the synthetic kinds `ANY`, `ANY_WHITESPACE`, `EOL`,
`NUMBER`, `WORD` are classification predicates over the stored kind and
content. -/
def Token.is_a (tok : Token) (wanted : TokenType) : Bool :=
  match wanted with
  | .ANY => true
  | .ANY_WHITESPACE => tok.ttype = .NEWLINE || tok.ttype = .WHITESPACE
  | .EOL => tok.ttype = .NEWLINE || tok.ttype = .EOF
  | .NUMBER => tok.ttype = .TEXT && isNumberText tok.content
  | .WORD => tok.ttype = .TEXT && isWordText tok.content
  | w => tok.ttype = w

/-- Python `Tokenizer._SINGLE_CHARACTER_TOKENS`. -/
def singleCharTable : List (Char × TokenType) :=
  [('=', .EQ), ('.', .DOT), (',', .COMMA), (':', .COLON), (';', .SEMICOLON),
   ('(', .LPARENT), (')', .RPARENT), (lbraceChar, .LBRACE), (rbraceChar, .RBRACE),
   ('[', .LBRACKET), (']', .RBRACKET), ('+', .ADD), ('-', .SUB), ('*', .MUL),
   ('/', .DIV), ('%', .MOD), ('^', .POW), ('&', .AMP), ('<', .LT), ('>', .GT),
   ('?', .QUESTION), ('!', .EXCLAMATION)]

/-- Tokenizer state: the shared reader, the pending-token queue, and the
construction-time configuration. -/
structure Tokenizer where
  reader : Reader
  tokens : List Token
  whitespace : TokenWhitespace
  singleTokens : List (Char × TokenType)
  deriving DecidableEq, Repr

/-- `Tokenizer.__init__` over an in-memory string, as the tests build it. -/
def mkTokenizer (s : String) (ws : TokenWhitespace) (single : List Char) : Tokenizer :=
  { reader := Reader.ofString s
    tokens := []
    whitespace := ws
    singleTokens := singleCharTable.filter (fun p => single.contains p.1) }

/-- `self._break_chars = aq.join(single_tokens) + "[]$;#hq" + dq` — word
terminators. -/
def breakChars (tk : Tokenizer) : List Char :=
  tk.singleTokens.map Prod.fst ++ ['[', ']', '$', ';', '#', aposChar, dquoteChar]

def pushTok (tk : Tokenizer) (t : TokenType) (s : String) : Tokenizer :=
  { tk with tokens := tk.tokens ++ [⟨t, s⟩] }

/-- One element of a `tokens_are` pattern: a single expected kind or a list
of alternatives (`hasattr(arg, '__iter__')` in the source). -/
inductive PatElem where
  | one (t : TokenType)
  | anyOf (ts : List TokenType)
  deriving DecidableEq, Repr

/-- `self._tokens[i].is_a(arg)` when `arg` may also be a list: `is_a` on a
list always returns `False` (no token type `is` a list). -/
def matchesOpt (tok : Token) : PatElem → Bool
  | .one t => tok.is_a t
  | .anyOf _ => false

/-- The lexer / matcher functions of `tokenizer.py`, fueled like `Engine`. -/
structure Lexer where
  nextToken : Tokenizer → Except Err Tokenizer
  wsNone : Tokenizer → Option Char → Except Err (Bool × Tokenizer)
  wsNewline : Tokenizer → Option Char → Except Err (Bool × Tokenizer)
  wsWhitespace : String → Tokenizer → Option Char → Except Err (Bool × Tokenizer)
  wsBothLoop : String → Tokenizer → Option Char → Except Err (Bool × Tokenizer)
  commentLoop : Tokenizer → Except Err Tokenizer
  sectionLoop : String → Tokenizer → Except Err Tokenizer
  squoteLoop : String → Tokenizer → Except Err Tokenizer
  dquoteLoop : String → Tokenizer → Except Err Tokenizer
  wordLoop : String → Tokenizer → Except Err Tokenizer
  ensureN : Nat → Tokenizer → Except Err Tokenizer
  optSkip : PatElem → Nat → Tokenizer → Except Err (Nat × Tokenizer)
  tokensAreGo : List PatElem → Option PatElem → List Token → Nat → Tokenizer →
    Except Err (Option (List Token × Nat) × Tokenizer)
  tokensAre : List PatElem → Tokenizer → List Token →
    Except Err (Option (List Token) × Tokenizer × List Token)

def lexerBot : Lexer where
  nextToken := fun _ => .error .fuel
  wsNone := fun _ _ => .error .fuel
  wsNewline := fun _ _ => .error .fuel
  wsWhitespace := fun _ _ _ => .error .fuel
  wsBothLoop := fun _ _ _ => .error .fuel
  commentLoop := fun _ => .error .fuel
  sectionLoop := fun _ _ => .error .fuel
  squoteLoop := fun _ _ => .error .fuel
  dquoteLoop := fun _ _ => .error .fuel
  wordLoop := fun _ _ => .error .fuel
  ensureN := fun _ _ => .error .fuel
  optSkip := fun _ _ _ => .error .fuel
  tokensAreGo := fun _ _ _ _ _ => .error .fuel
  tokensAre := fun _ _ _ => .error .fuel

/-- One fuel layer of the lexer bodies; `f` is the fuel handed to the
expansion engine when a `$` is met. -/
def mkLexer (Q : Quotes) (env : Env) (f : Nat) (prev : Lexer) : Lexer where
  /- `Tokenizer._next_token`. -/
  nextToken := fun tk =>
    let (c?, r) := tk.reader.get
    let tk := { tk with reader := r }
    match c? with
    | none => .ok (pushTok tk .EOF "")
    | some c =>
      if pyIsSpace c then do
        let pt ←
          match tk.whitespace with
          | .NONE => prev.wsNone tk (some c)
          | .NEWLINE => prev.wsNewline tk (some c)
          | .WHITESPACE => prev.wsWhitespace "" tk (some c)
          | .BOTH =>
            if c = Char.ofNat 10 then
              .ok (true, pushTok tk .NEWLINE (String.singleton (Char.ofNat 10)))
            else prev.wsBothLoop "" tk (some c)
        if pt.1 then .ok pt.2 else prev.nextToken pt.2
      else if c = '#' ∨ c = ';' then do
        let tk ← prev.commentLoop tk
        prev.nextToken tk
      else if c = '$' then do
        let (content?, r) ← (engineF Q env f).expand true tk.reader
        .ok (pushTok { tk with reader := r } .TEXT (content?.getD ""))
      else
        match List.lookup c tk.singleTokens with
        | some t => .ok (pushTok tk t (String.singleton c))
        | none =>
          if c = '[' then prev.sectionLoop "" tk
          else if c = dquoteChar then prev.dquoteLoop "" tk
          else if c = aposChar then prev.squoteLoop "" tk
          else prev.wordLoop (String.singleton c) tk
  /- `_handle_whitespace_none`. -/
  wsNone := fun tk c? =>
    match c? with
    | none => .ok (false, tk)
    | some c =>
      if !pyIsSpace c then
        match tk.reader.unget with
        | none => .error .ungetUnderflow
        | some r => .ok (false, { tk with reader := r })
      else
        let (c?, r) := tk.reader.get
        prev.wsNone { tk with reader := r } c?
  /- `_handle_whitespace_newline`. -/
  wsNewline := fun tk c? =>
    match c? with
    | none => .ok (false, tk)
    | some c =>
      if c = Char.ofNat 10 then
        .ok (true, pushTok tk .NEWLINE (String.singleton (Char.ofNat 10)))
      else if !pyIsSpace c then
        match tk.reader.unget with
        | none => .error .ungetUnderflow
        | some r => .ok (false, { tk with reader := r })
      else
        let (c?, r) := tk.reader.get
        prev.wsNewline { tk with reader := r } c?
  /- `_handle_whitespace_whitespace`. -/
  wsWhitespace := fun acc tk c? =>
    match c? with
    | none => .ok (true, pushTok tk .WHITESPACE acc)
    | some c =>
      if !pyIsSpace c then
        match tk.reader.unget with
        | none => .error .ungetUnderflow
        | some r => .ok (true, pushTok { tk with reader := r } .WHITESPACE acc)
      else
        let (c?, r) := tk.reader.get
        prev.wsWhitespace (acc.push c) { tk with reader := r } c?
  /- the loop of `_handle_whitespace_both` (the leading-newline case is
  handled at the call site, as in the source). -/
  wsBothLoop := fun acc tk c? =>
    match c? with
    | none => .ok (true, pushTok tk .WHITESPACE acc)
    | some c =>
      if !pyIsSpace c ∨ c = Char.ofNat 10 then
        match tk.reader.unget with
        | none => .error .ungetUnderflow
        | some r => .ok (true, pushTok { tk with reader := r } .WHITESPACE acc)
      else
        let (c?, r) := tk.reader.get
        prev.wsBothLoop (acc.push c) { tk with reader := r } c?
  /- comment consumption: `while True: c = get(); if c is None or newline:
  break` — note the newline is consumed. -/
  commentLoop := fun tk =>
    let (c?, r) := tk.reader.get
    let tk := { tk with reader := r }
    match c? with
    | none => .ok tk
    | some c => if c = Char.ofNat 10 then .ok tk else prev.commentLoop tk
  /- `Tokenizer._read_section`. -/
  sectionLoop := fun acc tk =>
    let (c?, r) := tk.reader.get
    let tk := { tk with reader := r }
    match c? with
    | none => .error .eofErr
    | some c =>
      if c = ']' then .ok (pushTok tk .SECTION acc)
      else if pyIsSpace c then .error .wsInSection
      else prev.sectionLoop (acc.push c) tk
  /- `Tokenizer._read_single_quote`: a doubled quote is a literal quote. -/
  squoteLoop := fun acc tk =>
    let (c?, r) := tk.reader.get
    let tk := { tk with reader := r }
    match c? with
    | none => .error .eofErr
    | some c =>
      if c = aposChar then
        let (c2?, r2) := tk.reader.get
        if c2? = some aposChar then
          prev.squoteLoop (acc.push aposChar) { tk with reader := r2 }
        else
          if c2?.isSome then
            match r2.unget with
            | none => .error .ungetUnderflow
            | some r3 => .ok (pushTok { tk with reader := r3 } .TEXT acc)
          else .ok (pushTok { tk with reader := r2 } .TEXT acc)
      else prev.squoteLoop (acc.push c) tk
  /- `Tokenizer._read_double_quote`: `$` expands, backslash quotes. -/
  dquoteLoop := fun acc tk =>
    let (c?, r) := tk.reader.get
    let tk := { tk with reader := r }
    match c? with
    | none => .error .eofErr
    | some c =>
      if c = dquoteChar then .ok (pushTok tk .TEXT acc)
      else if c = '$' then do
        let (v?, r) ← (engineF Q env f).expand true tk.reader
        prev.dquoteLoop (acc ++ (v?.getD "")) { tk with reader := r }
      else if c = backslashChar then do
        let (q, r) ← tk.reader.getQuoted
        prev.dquoteLoop (acc.push q) { tk with reader := r }
      else prev.dquoteLoop (acc.push c) tk
  /- the bare-word accumulation at the end of `_next_token`. -/
  wordLoop := fun acc tk =>
    let (c?, r) := tk.reader.get
    let tk := { tk with reader := r }
    match c? with
    | none => .ok (pushTok tk .TEXT acc)
    | some c =>
      if pyIsSpace c ∨ (breakChars tk).contains c then
        match tk.reader.unget with
        | none => .error .ungetUnderflow
        | some r => .ok (pushTok { tk with reader := r } .TEXT acc)
      else prev.wordLoop (acc.push c) tk
  /- `Tokenizer._ensure_n_tokens`. -/
  ensureN := fun n tk =>
    if tk.tokens.length ≤ n then do
      let tk ← prev.nextToken tk
      prev.ensureN n tk
    else .ok tk
  /- the OPTIONAL quantifier loop of `tokens_are`:
  `while tokens[i].is_a(arg): i += 1; ensure(i)`. -/
  optSkip := fun arg i tk =>
    if matchesOpt (tk.tokens.getD i default) arg then do
      let tk ← prev.ensureN (i + 1) tk
      prev.optSkip arg (i + 1) tk
    else .ok (i, tk)
  /- the `for arg in args` loop of `tokens_are`. -/
  tokensAreGo := fun pat lastWas taken i tk =>
    match pat with
    | [] =>
      if lastWas = some (PatElem.one .OPTIONAL) then .error .danglingOpt
      else .ok (some (taken, i), tk)
    | arg :: rest => do
      let tk ← prev.ensureN i tk
      if lastWas = some (PatElem.one .OPTIONAL) then do
        let (i, tk) ← prev.optSkip arg i tk
        prev.tokensAreGo rest (some arg) taken i tk
      else if arg = PatElem.one .OPTIONAL then
        prev.tokensAreGo rest (some arg) taken i tk
      else
        match arg with
        | .anyOf ts =>
          if ts.any (fun t => (tk.tokens.getD i default).is_a t) then
            prev.tokensAreGo rest (some arg) (taken ++ [tk.tokens.getD i default]) (i + 1) tk
          else .ok (none, tk)
        | .one t =>
          if (tk.tokens.getD i default).is_a t then
            prev.tokensAreGo rest (some arg) (taken ++ [tk.tokens.getD i default]) (i + 1) tk
          else .ok (none, tk)
  /- `Tokenizer.tokens_are`: on success the matched tokens are appended to
  the output list and sliced off the queue; on no-match nothing is appended
  and the queue keeps whatever was materialized. -/
  tokensAre := fun pat tk output => do
    let (res, tk) ← prev.tokensAreGo pat none [] 0 tk
    match res with
    | none => .ok (none, tk, output)
    | some (taken, i) =>
      let out := output ++ taken
      .ok (some out, { tk with tokens := tk.tokens.drop i }, out)

def lexerF (Q : Quotes) (env : Env) : Nat → Lexer
  | 0 => lexerBot
  | f + 1 => mkLexer Q env f (lexerF Q env f)

/-- `Tokenizer._next_token` with explicit fuel. -/
def nextTokenF (Q : Quotes) (env : Env) (f : Nat) (tk : Tokenizer) :
    Except Err Tokenizer :=
  (lexerF Q env f).nextToken tk

/-- `Tokenizer.tokens_are` with explicit fuel and explicit output list (the
Python `output=[]` mutable default argument is modelled by threading the
list through the caller, see the C9 theorems). -/
def tokensAreF (Q : Quotes) (env : Env) (f : Nat) (pat : List PatElem)
    (tk : Tokenizer) (output : List Token) :
    Except Err (Option (List Token) × Tokenizer × List Token) :=
  (lexerF Q env f).tokensAre pat tk output

/-- `Tokenizer._ensure_n_tokens` with explicit fuel. -/
def ensureNF (Q : Quotes) (env : Env) (f : Nat) (n : Nat) (tk : Tokenizer) :
    Except Err Tokenizer :=
  (lexerF Q env f).ensureN n tk

deriving instance DecidableEq for Except

/-! ## Claim C3: the duration quote functions and the `d` unit -/

/-- C3: the spec (and the code's own docstring and scale tables) say the
duration quotes accept the unit `d`, but the anchoring regexes
`^([1-9][0-9]*)(|h|ms?|s)$` and `^([1-9][0-9]*)(|h|m|s)$` do not: `"1d"` is
rejected as not-a-duration although `TO_MILLISECONDS_SCALE`/`TO_SECONDS_SCALE`
both carry a `d` entry; the other advertised units convert correctly. -/
theorem to_ms_rejects_day_unit :
    to_milliseconds "1d" = .error .notADuration ∧
    to_seconds "1d" = .error .notADuration ∧
    List.lookup "d" TO_MILLISECONDS_SCALE = some 86400000 ∧
    List.lookup "d" TO_SECONDS_SCALE = some 86400 ∧
    to_milliseconds "90s" = .ok "90000" ∧
    to_milliseconds "5" = .ok "5" ∧
    to_milliseconds "3ms" = .ok "3" ∧
    to_milliseconds "2m" = .ok "120000" ∧
    to_milliseconds "1h" = .ok "3600000" ∧
    to_seconds "2h" = .ok "7200" ∧
    to_seconds "2m" = .ok "120" ∧
    to_seconds "7" = .ok "7" := by decide

/-! ## Claim C5: DIV is `int(l / r)`, a float division -/

/-- C5: the DIV node computes Python `int(l / r)` — true division through an
IEEE-754 double — which is NOT the exact truncated quotient for every
magnitude: at `l = 2^53 + 1`, `r = 1` the code yields `2^53` while the exact
toward-zero quotient is `2^53 + 1`.  Modulo (floored), min and max are exact
native integer operations, and DIV does truncate toward zero at small
magnitudes. -/
theorem div_inexact_above_2_pow_53 :
    getValue (.expr .DIV (.value (some (2 ^ 53 + 1))) (.value (some 1)))
      = .ok (2 ^ 53) ∧
    (2 ^ 53 + 1 : Int).tdiv 1 = 2 ^ 53 + 1 ∧
    getValue (.expr .DIV (.value (some (-7))) (.value (some 2))) = .ok (-3) ∧
    applyOp .MOD (-7) 3 = .ok 2 ∧
    applyOp .MIN 3 5 = .ok 3 ∧
    applyOp .MAX 3 5 = .ok 5 := by decide

/-! ## Claim C4: a comment consumes its terminating newline -/

/-- C4 counterexample: tokenizing `"[fool] #abc\n"` under the
newline-producing whitespace policy does NOT yield SECTION followed by
NEWLINE — the comment loop consumes the newline, so the second token is EOF:
the pattern `SECTION NEWLINE` fails to match, and the two materialized
tokens are SECTION `"fool"` and EOF. -/
theorem section_comment_no_newline_token :
    (tokensAreF DEFAULT_QUOTES [] 80 [.one .SECTION, .one .NEWLINE]
        (mkTokenizer "[fool] #abc\n" .NEWLINE ['=']) []).map (fun p => p.1)
      = .ok none ∧
    (ensureNF DEFAULT_QUOTES [] 80 1
        (mkTokenizer "[fool] #abc\n" .NEWLINE ['='])).map Tokenizer.tokens
      = .ok [⟨.SECTION, "fool"⟩, ⟨.EOF, ""⟩] := by decide

/-- C4 amended: `"[fool] #abc\n"` tokenizes to SECTION `"fool"` followed
directly by EOF — the comment after `#` is consumed to end-of-line
INCLUDING the terminating newline, so no NEWLINE token is produced for a
comment's own newline; with a further (non-comment) newline in the input,
as in the repository's test `"; bah \n[fool] #abc\n  \n"`, the token stream
is SECTION, NEWLINE, EOF. -/
theorem section_comment_swallows_newline :
    (ensureNF DEFAULT_QUOTES [] 80 1
        (mkTokenizer "[fool] #abc\n" .NEWLINE ['='])).map Tokenizer.tokens
      = .ok [⟨.SECTION, "fool"⟩, ⟨.EOF, ""⟩] ∧
    (tokensAreF DEFAULT_QUOTES [] 80 [.one .SECTION, .one .NEWLINE, .one .EOF]
        (mkTokenizer "; bah \n[fool] #abc\n  \n" .NEWLINE ['=']) []).map (fun p => p.1)
      = .ok (some [⟨.SECTION, "fool"⟩, ⟨.NEWLINE, "\n"⟩, ⟨.EOF, ""⟩]) := by decide

/-! ## Claim C6: arithmetic examples -/

/-- C6: `"(4 * ---4)"` evaluates to `-16` (repeated unary minus toggles per
occurrence), `"($A * ---4)"` with `A = "-4"` evaluates to `16` (leading
minus characters of an expanded operand toggle a sign flag cumulatively),
and `"(4/3*0)"` evaluates to `0` (equal precedence reduces left to right
with truncating division); in each case the cursor ends exactly past the
closing parenthesis (here: at EOF). -/
theorem arithmetic_examples :
    expandRes "(4 * ---4)" [] 60 true = .ok (some "-16", none) ∧
    expandRes "($A * ---4)" [("A", "-4")] 60 true = .ok (some "16", none) ∧
    expandRes "(4/3*0)" [] 60 true = .ok (some "0", none) := by decide

/-! ## Claim C7: braced expansion with default value -/

/-- C7: `"{ABC|123}"` with `ABC` undefined expands to `"123"`; `"{FOO|123}"`
with `FOO = "BAR"` expands to `"BAR"`; and even with an unresolvable nested
expansion in the default body (`"{FOO|12${ABC}3}"`) the resolved value is
returned while the whole construct — default body included — is consumed
(the cursor ends at EOF in all three cases). -/
theorem braced_default_examples :
    expandRes "\x7bABC|123\x7d" [("FOO", "BAR")] 60 true = .ok (some "123", none) ∧
    expandRes "\x7bFOO|123\x7d" [("FOO", "BAR")] 60 true = .ok (some "BAR", none) ∧
    expandRes "\x7bFOO|12$\x7bABC\x7d3\x7d" [("FOO", "BAR")] 60 true
      = .ok (some "BAR", none) := by decide

/-! ## Claim C10: quotes are applied only to resolved values -/

/-- C10: in a braced expansion `${NAME:quote,...|default}` with
`should_resolve = true`, whenever the name does not resolve (the lookup of
the parsed name yields nothing), the expansion returns the default body's
expanded text exactly as `_process_until_closing_bracket` produced it — the
listed quote functions are not applied to it (they are folded over the value
only in the resolved branch). -/
theorem braced_unresolved_default_verbatim
    (f : Nat) (Q : Quotes) (env : Env) (r r1 r2 rE : Reader)
    (name? : Option String) (qs : List String) (dflt : String)
    (h1 : (engineF Q env f).getNameLoop none r = .ok (name?, r1))
    (h2 : name?.bind (lookupEnv env) = none)
    (h3 : quoteScanE (engineF Q env f) r1 = .ok (qs, some '|', r2))
    (h4 : (engineF Q env f).pucLoop true "" r2 = .ok (dflt, rE)) :
    (engineF Q env (f + 1)).expandVariable true r = .ok (some dflt, rE) := by
  simp only [engineF, mkEngine, bind, Except.bind, h1, h2, h3, Option.isNone,
    Bool.and_self, if_true]
  rw [h4]

/-- The input of the C10 witness: the text after `${`, i.e.
`A:sql|it`(apostrophe)`s`(closing brace). -/
def c10input : String := "A:sql|it\x27s\x7d"

/-- C10 witness: expanding `${A:sql|it's}` with `A` unbound returns the
default body `it's` verbatim — in particular the listed `sql` quote (which
would double the apostrophe) is not applied. -/
theorem braced_unresolved_default_verbatim_witness :
    (engineF DEFAULT_QUOTES [] 100).expandVariable true (Reader.ofString c10input)
      = .ok (some ("it" ++ String.singleton aposChar ++ "s"),
             { Reader.ofString c10input with pos := 12, eofFlag := true }) :=
  braced_unresolved_default_verbatim 99 DEFAULT_QUOTES []
    (Reader.ofString c10input)
    { Reader.ofString c10input with pos := 2 }
    { Reader.ofString c10input with pos := 7 }
    { Reader.ofString c10input with pos := 12, eofFlag := true }
    (some "A") ["sql"] ("it" ++ String.singleton aposChar ++ "s")
    (by decide) (by decide) (by decide) (by decide)

/-! ## Claim C9: the shared mutable default output list -/

/-- On success, `tokens_are` returns the caller-supplied output list with the
matched tokens appended at the end (and nothing else changed in it). -/
theorem tokensAre_appends (Q : Quotes) (env : Env) (f : Nat) (pat : List PatElem)
    (tk : Tokenizer) (out : List Token) (res : List Token) (tk' : Tokenizer)
    (out' : List Token)
    (h : tokensAreF Q env (f + 1) pat tk out = .ok (some res, tk', out')) :
    ∃ taken, res = out ++ taken ∧ out' = res := by
  rcases hx : (lexerF Q env f).tokensAreGo pat none [] 0 tk with e | p
  · simp [tokensAreF, lexerF, mkLexer, bind, Except.bind, hx] at h
  · rcases p with ⟨res?, tk1⟩
    rcases res? with _ | ⟨taken, i⟩
    · simp [tokensAreF, lexerF, mkLexer, bind, Except.bind, pure, Except.pure, hx] at h
    · simp only [tokensAreF, lexerF, mkLexer, bind, Except.bind, pure, Except.pure, hx] at h
      rw [Except.ok.injEq, Prod.mk.injEq, Prod.mk.injEq, Option.some.injEq] at h
      obtain ⟨ha, -, hc⟩ := h
      refine ⟨taken, ha.symm, ?_⟩
      rw [← hc]
      exact ha

/-- C9: `tokens_are(self, *args, output=[])` uses a mutable default
argument: the default list object is created once when the function is
defined and is shared by every call — on any `Tokenizer` instance — that
omits `output`.  Here that shared list is modelled by threading it
explicitly: the second successful call receives the list returned by the
first, and its result therefore still contains every token matched by the
earlier call, in front of its own matches. -/
theorem shared_default_output_accumulates
    (Q1 Q2 : Quotes) (env1 env2 : Env) (f g : Nat) (p1 p2 : List PatElem)
    (tk1 tk2 tk1e tk2e : Tokenizer) (init r1 r2 o1 o2 : List Token)
    (h1 : tokensAreF Q1 env1 (f + 1) p1 tk1 init = .ok (some r1, tk1e, o1))
    (h2 : tokensAreF Q2 env2 (g + 1) p2 tk2 r1 = .ok (some r2, tk2e, o2)) :
    ∃ t1 t2, r1 = init ++ t1 ∧ r2 = init ++ t1 ++ t2 := by
  obtain ⟨t1, ht1, -⟩ := tokensAre_appends Q1 env1 f p1 tk1 init r1 tk1e o1 h1
  obtain ⟨t2, ht2, -⟩ := tokensAre_appends Q2 env2 g p2 tk2 r1 r2 tk2e o2 h2
  exact ⟨t1, t2, ht1, by rw [ht2, ht1, List.append_assoc]⟩

/-- C9 witness: matching TEXT on the input `"a"` with the (empty) default
list, then matching TEXT on a different Tokenizer instance over `"c"` with
the list the first call returned, yields a list still carrying the first
call's token. -/
theorem shared_default_output_accumulates_witness :
    ∃ t1 t2,
      ([⟨.TEXT, "a"⟩] : List Token) = [] ++ t1 ∧
      ([⟨.TEXT, "a"⟩, ⟨.TEXT, "c"⟩] : List Token) = [] ++ t1 ++ t2 :=
  shared_default_output_accumulates DEFAULT_QUOTES DEFAULT_QUOTES [] [] 49 49
    [.one .TEXT] [.one .TEXT]
    (mkTokenizer "a" .NEWLINE ['=']) (mkTokenizer "c" .NEWLINE ['='])
    { mkTokenizer "a" .NEWLINE ['='] with
      reader := { Reader.ofString "a" with pos := 2, eofFlag := true } }
    { mkTokenizer "c" .NEWLINE ['='] with
      reader := { Reader.ofString "c" with pos := 2, eofFlag := true } }
    [] [⟨.TEXT, "a"⟩] [⟨.TEXT, "a"⟩, ⟨.TEXT, "c"⟩]
    [⟨.TEXT, "a"⟩] [⟨.TEXT, "a"⟩, ⟨.TEXT, "c"⟩]
    (by decide) (by decide)

/-! ## Claim C2: a failing match consumes nothing -/

/-- C2 counterexample: the pending-token queue is NOT byte-for-byte
unchanged by a failing `tokens_are`: matching the pattern `EQ` against the
input `"x"` fails, but the token `TEXT "x"` that was materialized during the
attempt stays in the queue, which was empty before. -/
theorem failing_match_queue_grows :
    (tokensAreF DEFAULT_QUOTES [] 50 [.one .EQ] (mkTokenizer "x" .NEWLINE ['=']) []).map
        (fun p => (p.1, p.2.1.tokens))
      = .ok (none, [⟨.TEXT, "x"⟩]) ∧
    (mkTokenizer "x" .NEWLINE ['=']).tokens = ([] : List Token) := by decide

/-- `b` is `a` after materializing zero or more lookahead tokens with
`_next_token`: every state change of a match attempt is of this shape —
source characters are consumed and the lexed tokens are appended to the
queue, nothing is removed. -/
inductive Materializes (Q : Quotes) (env : Env) : Tokenizer → Tokenizer → Prop where
  | refl (tk : Tokenizer) : Materializes Q env tk tk
  | step {tk tk1 tk2 : Tokenizer} (g : Nat)
      (h : nextTokenF Q env g tk = .ok tk1)
      (rest : Materializes Q env tk1 tk2) : Materializes Q env tk tk2

theorem Materializes.trans {Q : Quotes} {env : Env} {a b c : Tokenizer}
    (h1 : Materializes Q env a b) (h2 : Materializes Q env b c) :
    Materializes Q env a c := by
  induction h1 with
  | refl _ => exact h2
  | step g h _ ih => exact .step g h (ih h2)

/-- The pending-token queue of `b` is the queue of `a` with zero or more
tokens appended. -/
def TokExt (a b : Tokenizer) : Prop := ∃ ts, b.tokens = a.tokens ++ ts

theorem TokExt.id (a : Tokenizer) : TokExt a a := ⟨[], by simp⟩

theorem TokExt.ofTokensEq {a b : Tokenizer} (h : b.tokens = a.tokens) :
    TokExt a b := ⟨[], by simp [h]⟩

theorem TokExt.comp {a b c : Tokenizer} (h1 : TokExt a b) (h2 : TokExt b c) :
    TokExt a c := by
  obtain ⟨t1, e1⟩ := h1
  obtain ⟨t2, e2⟩ := h2
  exact ⟨t1 ++ t2, by rw [e2, e1, List.append_assoc]⟩

theorem TokExt.pushR {a b : Tokenizer} (h : TokExt a b) (t : TokenType) (s : String) :
    TokExt a (pushTok b t s) :=
  h.comp ⟨[⟨t, s⟩], rfl⟩

/-- Updating only the reader leaves the queue untouched. -/
theorem TokExt.reader (tk : Tokenizer) (r : Reader) :
    TokExt tk { tk with reader := r } := ⟨[], by simp⟩

/-- Splitting helper for `Except` binds. -/
theorem bindOk {A B : Type} {x : Except Err A} {g : A → Except Err B} {b : B}
    (h : (x >>= g) = .ok b) : ∃ a, x = .ok a ∧ g a = .ok b := by
  cases x with
  | error e => simp [Bind.bind, Except.bind] at h
  | ok a => exact ⟨a, rfl, by simpa [Bind.bind, Except.bind] using h⟩

/-- Every token-producing function of the lexer only appends to the pending
queue: whatever it returns, the input queue is a prefix of the output queue.
Proved for all fuel levels simultaneously by induction on the fuel. -/
theorem lexer_tokens_extend (Q : Quotes) (env : Env) : ∀ f : Nat,
    (∀ tk tk', (lexerF Q env f).nextToken tk = .ok tk' → TokExt tk tk') ∧
    (∀ tk c p, (lexerF Q env f).wsNone tk c = .ok p → TokExt tk p.2) ∧
    (∀ tk c p, (lexerF Q env f).wsNewline tk c = .ok p → TokExt tk p.2) ∧
    (∀ a tk c p, (lexerF Q env f).wsWhitespace a tk c = .ok p → TokExt tk p.2) ∧
    (∀ a tk c p, (lexerF Q env f).wsBothLoop a tk c = .ok p → TokExt tk p.2) ∧
    (∀ tk tk', (lexerF Q env f).commentLoop tk = .ok tk' → TokExt tk tk') ∧
    (∀ a tk tk', (lexerF Q env f).sectionLoop a tk = .ok tk' → TokExt tk tk') ∧
    (∀ a tk tk', (lexerF Q env f).squoteLoop a tk = .ok tk' → TokExt tk tk') ∧
    (∀ a tk tk', (lexerF Q env f).dquoteLoop a tk = .ok tk' → TokExt tk tk') ∧
    (∀ a tk tk', (lexerF Q env f).wordLoop a tk = .ok tk' → TokExt tk tk') := by
  intro f
  induction f with
  | zero =>
    refine ⟨?_, ?_, ?_, ?_, ?_, ?_, ?_, ?_, ?_, ?_⟩ <;> intros <;>
      simp_all [lexerF, lexerBot]
  | succ f ih =>
    obtain ⟨ihNext, ihWsN, ihWsNl, ihWsW, ihWsB, ihCom, ihSec, ihSq, ihDq, ihWord⟩ := ih
    refine ⟨?_, ?_, ?_, ?_, ?_, ?_, ?_, ?_, ?_, ?_⟩
    · -- nextToken
      intro tk tk' h
      simp only [lexerF, mkLexer] at h
      rcases hg : tk.reader.get with ⟨c?, r⟩
      rw [hg] at h
      rcases c? with _ | c
      · simp only at h
        obtain rfl := Except.ok.inj h
        exact TokExt.pushR (.ofTokensEq rfl) _ _
      · simp only at h
        split at h
        · -- whitespace branch: policy dispatch, continuation duplicated by do
          split at h
          · obtain ⟨pt, hx, h⟩ := bindOk h
            have hws : TokExt tk pt.2 := (TokExt.reader tk r).comp (ihWsN _ _ _ hx)
            split at h
            · obtain rfl := Except.ok.inj h; exact hws
            · exact hws.comp (ihNext _ _ h)
          · obtain ⟨pt, hx, h⟩ := bindOk h
            have hws : TokExt tk pt.2 := (TokExt.reader tk r).comp (ihWsNl _ _ _ hx)
            split at h
            · obtain rfl := Except.ok.inj h; exact hws
            · exact hws.comp (ihNext _ _ h)
          · obtain ⟨pt, hx, h⟩ := bindOk h
            have hws : TokExt tk pt.2 := (TokExt.reader tk r).comp (ihWsW _ _ _ _ hx)
            split at h
            · obtain rfl := Except.ok.inj h; exact hws
            · exact hws.comp (ihNext _ _ h)
          · split at h
            · obtain ⟨pt, hx, h⟩ := bindOk h
              obtain rfl := Except.ok.inj hx
              split at h
              · obtain rfl := Except.ok.inj h
                exact TokExt.pushR (.ofTokensEq rfl) _ _
              · rename_i hc
                simp at hc
            · obtain ⟨pt, hx, h⟩ := bindOk h
              have hws : TokExt tk pt.2 := (TokExt.reader tk r).comp (ihWsB _ _ _ _ hx)
              split at h
              · obtain rfl := Except.ok.inj h; exact hws
              · exact hws.comp (ihNext _ _ h)
        · split at h
          · -- comment branch
            obtain ⟨tk1, hx, h⟩ := bindOk h
            exact ((TokExt.reader tk r).comp (ihCom _ _ hx)).comp (ihNext _ _ h)
          · split at h
            · -- dollar branch
              obtain ⟨pr, hx, h⟩ := bindOk h
              rcases pr with ⟨c2, r2⟩
              simp only at h
              obtain rfl := Except.ok.inj h
              exact TokExt.pushR (.ofTokensEq rfl) _ _
            · split at h
              · obtain rfl := Except.ok.inj h
                exact TokExt.pushR (.ofTokensEq rfl) _ _
              · split at h
                · exact (TokExt.reader tk r).comp (ihSec _ _ _ h)
                · split at h
                  · exact (TokExt.reader tk r).comp (ihDq _ _ _ h)
                  · split at h
                    · exact (TokExt.reader tk r).comp (ihSq _ _ _ h)
                    · exact (TokExt.reader tk r).comp (ihWord _ _ _ h)
    · -- wsNone
      intro tk c? p h
      simp only [lexerF, mkLexer] at h
      rcases c? with _ | c
      · simp only at h
        obtain rfl := Except.ok.inj h
        exact TokExt.id tk
      · simp only at h
        split at h
        · split at h
          · simp at h
          · obtain rfl := Except.ok.inj h
            exact .ofTokensEq rfl
        · rcases hg : tk.reader.get with ⟨c2?, r2⟩
          rw [hg] at h
          simp only at h
          exact (TokExt.reader tk r2).comp (ihWsN _ _ _ h)
    · -- wsNewline
      intro tk c? p h
      simp only [lexerF, mkLexer] at h
      rcases c? with _ | c
      · simp only at h
        obtain rfl := Except.ok.inj h
        exact TokExt.id tk
      · simp only at h
        split at h
        · obtain rfl := Except.ok.inj h
          exact TokExt.pushR (.id tk) _ _
        · split at h
          · split at h
            · simp at h
            · obtain rfl := Except.ok.inj h
              exact .ofTokensEq rfl
          · rcases hg : tk.reader.get with ⟨c2?, r2⟩
            rw [hg] at h
            simp only at h
            exact (TokExt.reader tk r2).comp (ihWsNl _ _ _ h)
    · -- wsWhitespace
      intro a tk c? p h
      simp only [lexerF, mkLexer] at h
      rcases c? with _ | c
      · simp only at h
        obtain rfl := Except.ok.inj h
        exact TokExt.pushR (.id tk) _ _
      · simp only at h
        split at h
        · split at h
          · simp at h
          · obtain rfl := Except.ok.inj h
            exact TokExt.pushR (.ofTokensEq rfl) _ _
        · rcases hg : tk.reader.get with ⟨c2?, r2⟩
          rw [hg] at h
          simp only at h
          exact (TokExt.reader tk r2).comp (ihWsW _ _ _ _ h)
    · -- wsBothLoop
      intro a tk c? p h
      simp only [lexerF, mkLexer] at h
      rcases c? with _ | c
      · simp only at h
        obtain rfl := Except.ok.inj h
        exact TokExt.pushR (.id tk) _ _
      · simp only at h
        split at h
        · split at h
          · simp at h
          · obtain rfl := Except.ok.inj h
            exact TokExt.pushR (.ofTokensEq rfl) _ _
        · rcases hg : tk.reader.get with ⟨c2?, r2⟩
          rw [hg] at h
          simp only at h
          exact (TokExt.reader tk r2).comp (ihWsB _ _ _ _ h)
    · -- commentLoop
      intro tk tk' h
      simp only [lexerF, mkLexer] at h
      rcases hg : tk.reader.get with ⟨c?, r⟩
      rw [hg] at h
      rcases c? with _ | c
      · simp only at h
        obtain rfl := Except.ok.inj h
        exact .ofTokensEq rfl
      · simp only at h
        split at h
        · obtain rfl := Except.ok.inj h
          exact .ofTokensEq rfl
        · exact (TokExt.reader tk r).comp (ihCom _ _ h)
    · -- sectionLoop
      intro a tk tk' h
      simp only [lexerF, mkLexer] at h
      rcases hg : tk.reader.get with ⟨c?, r⟩
      rw [hg] at h
      rcases c? with _ | c
      · simp at h
      · simp only at h
        split at h
        · obtain rfl := Except.ok.inj h
          exact TokExt.pushR (.ofTokensEq rfl) _ _
        · split at h
          · simp at h
          · exact (TokExt.reader tk r).comp (ihSec _ _ _ h)
    · -- squoteLoop
      intro a tk tk' h
      simp only [lexerF, mkLexer] at h
      rcases hg : tk.reader.get with ⟨c?, r⟩
      rw [hg] at h
      rcases c? with _ | c
      · simp at h
      · simp only at h
        split at h
        · rcases hg2 : r.get with ⟨c2?, r2⟩
          rw [hg2] at h
          simp only at h
          split at h
          · exact (TokExt.reader tk r2).comp (ihSq _ _ _ h)
          · split at h
            · split at h
              · simp at h
              · obtain rfl := Except.ok.inj h
                exact TokExt.pushR (.ofTokensEq rfl) _ _
            · obtain rfl := Except.ok.inj h
              exact TokExt.pushR (.ofTokensEq rfl) _ _
        · exact (TokExt.reader tk r).comp (ihSq _ _ _ h)
    · -- dquoteLoop
      intro a tk tk' h
      simp only [lexerF, mkLexer] at h
      rcases hg : tk.reader.get with ⟨c?, r⟩
      rw [hg] at h
      rcases c? with _ | c
      · simp at h
      · simp only at h
        split at h
        · obtain rfl := Except.ok.inj h
          exact TokExt.pushR (.ofTokensEq rfl) _ _
        · split at h
          · obtain ⟨pr, hx, h⟩ := bindOk h
            rcases pr with ⟨c2, r2⟩
            simp only at h
            exact (TokExt.reader tk r2).comp (ihDq _ _ _ h)
          · split at h
            · obtain ⟨pr, hx, h⟩ := bindOk h
              rcases pr with ⟨c2, r2⟩
              simp only at h
              exact (TokExt.reader tk r2).comp (ihDq _ _ _ h)
            · exact (TokExt.reader tk r).comp (ihDq _ _ _ h)
    · -- wordLoop
      intro a tk tk' h
      simp only [lexerF, mkLexer] at h
      rcases hg : tk.reader.get with ⟨c?, r⟩
      rw [hg] at h
      rcases c? with _ | c
      · simp only at h
        obtain rfl := Except.ok.inj h
        exact TokExt.pushR (.ofTokensEq rfl) _ _
      · simp only at h
        split at h
        · split at h
          · simp at h
          · obtain rfl := Except.ok.inj h
            exact TokExt.pushR (.ofTokensEq rfl) _ _
        · exact (TokExt.reader tk r).comp (ihWord _ _ _ h)

/-- Every state change performed by the matcher side (`_ensure_n_tokens`,
the OPTIONAL skip loop, and the `for arg in args` loop of `tokens_are`) is a
sequence of `_next_token` materializations. -/
theorem matcher_materializes (Q : Quotes) (env : Env) : ∀ f : Nat,
    (∀ n tk tk', (lexerF Q env f).ensureN n tk = .ok tk' →
      Materializes Q env tk tk') ∧
    (∀ arg i tk p, (lexerF Q env f).optSkip arg i tk = .ok p →
      Materializes Q env tk p.2) ∧
    (∀ pat lw taken i tk p, (lexerF Q env f).tokensAreGo pat lw taken i tk = .ok p →
      Materializes Q env tk p.2) := by
  intro f
  induction f with
  | zero => refine ⟨?_, ?_, ?_⟩ <;> intros <;> simp_all [lexerF, lexerBot]
  | succ f ih =>
    obtain ⟨ihE, ihO, ihG⟩ := ih
    refine ⟨?_, ?_, ?_⟩
    · intro n tk tk' h
      simp only [lexerF, mkLexer] at h
      split at h
      · obtain ⟨tk1, hx, h⟩ := bindOk h
        exact Materializes.step f hx (ihE _ _ _ h)
      · obtain rfl := Except.ok.inj h
        exact .refl tk
    · intro arg i tk p h
      simp only [lexerF, mkLexer] at h
      split at h
      · obtain ⟨tk1, hx, h⟩ := bindOk h
        exact (ihE _ _ _ hx).trans (ihO _ _ _ _ h)
      · obtain rfl := Except.ok.inj h
        exact .refl tk
    · intro pat lw taken i tk p h
      simp only [lexerF, mkLexer] at h
      cases pat with
      | nil =>
        simp only at h
        split at h
        · simp at h
        · obtain rfl := Except.ok.inj h
          exact .refl tk
      | cons arg rest =>
        simp only at h
        obtain ⟨tk1, hx, h⟩ := bindOk h
        have m1 : Materializes Q env tk tk1 := ihE _ _ _ hx
        split at h
        · obtain ⟨pr, hy, h⟩ := bindOk h
          rcases pr with ⟨i2, tk2⟩
          simp only at h
          exact m1.trans ((ihO _ _ _ _ hy).trans (ihG _ _ _ _ _ _ h))
        · split at h
          · exact m1.trans (ihG _ _ _ _ _ _ h)
          · split at h
            · split at h
              · exact m1.trans (ihG _ _ _ _ _ _ h)
              · obtain rfl := Except.ok.inj h
                exact m1
            · split at h
              · exact m1.trans (ihG _ _ _ _ _ _ h)
              · obtain rfl := Except.ok.inj h
                exact m1

/-- Materialization only appends to the queue. -/
theorem materializes_tokExt {Q : Quotes} {env : Env} {a b : Tokenizer}
    (h : Materializes Q env a b) : TokExt a b := by
  induction h with
  | refl _ => exact .id _
  | step g hs _ ih => exact ((lexer_tokens_extend Q env g).1 _ _ hs).comp ih

/-- C2 amended: when `tokens_are` fails to match, no token is consumed and
the output buffer is untouched; the pending queue is not necessarily
byte-for-byte identical — it is the original queue with zero or more freshly
materialized lookahead tokens appended (the tokenizer state changes only by
`_next_token` materializations, which the next match attempt observes
identically). -/
theorem failing_match_consumes_nothing
    (Q : Quotes) (env : Env) (f : Nat) (pat : List PatElem) (tk tk' : Tokenizer)
    (out out' : List Token)
    (h : tokensAreF Q env (f + 1) pat tk out = .ok (none, tk', out')) :
    out' = out ∧ Materializes Q env tk tk' ∧ ∃ ts, tk'.tokens = tk.tokens ++ ts := by
  simp only [tokensAreF, lexerF, mkLexer] at h
  obtain ⟨pr, hx, h⟩ := bindOk h
  rcases pr with ⟨res?, tk1⟩
  rcases res? with _ | ⟨taken, i⟩
  · simp only at h
    rw [Except.ok.injEq, Prod.mk.injEq, Prod.mk.injEq] at h
    obtain ⟨-, h2, h3⟩ := h
    have m : Materializes Q env tk tk1 :=
      (matcher_materializes Q env f).2.2 _ _ _ _ _ _ hx
    exact ⟨h3.symm, h2 ▸ m, h2 ▸ materializes_tokExt m⟩
  · simp only at h
    rw [Except.ok.injEq, Prod.mk.injEq] at h
    simp at h

/-- C2 witness: the failing `EQ` match against `"x"` — the output stays
empty, the final state is a materialization of the initial one, and the
queue gained exactly the lookahead token. -/
theorem failing_match_consumes_nothing_witness :
    ([] : List Token) = [] ∧
    Materializes DEFAULT_QUOTES [] (mkTokenizer "x" .NEWLINE ['='])
      { mkTokenizer "x" .NEWLINE ['='] with
        reader := { Reader.ofString "x" with pos := 2, eofFlag := true }
        tokens := [⟨.TEXT, "x"⟩] } ∧
    ∃ ts,
      ({ mkTokenizer "x" .NEWLINE ['='] with
        reader := { Reader.ofString "x" with pos := 2, eofFlag := true }
        tokens := [⟨.TEXT, "x"⟩] } : Tokenizer).tokens
        = (mkTokenizer "x" .NEWLINE ['=']).tokens ++ ts :=
  failing_match_consumes_nothing DEFAULT_QUOTES [] 49 [.one .EQ]
    (mkTokenizer "x" .NEWLINE ['='])
    { mkTokenizer "x" .NEWLINE ['='] with
      reader := { Reader.ofString "x" with pos := 2, eofFlag := true }
      tokens := [⟨.TEXT, "x"⟩] }
    [] [] (by decide)

/-! ## Claim C8: `get` / `unget` / `get` round-trip -/

theorem eofQ_mk_false_of_ne (src : List (List Char)) (buf : List Line)
    (line real pos : Nat) (flag : Bool)
    (h1 : line < buf.length) (h2 : pos ≠ pyLen (buf.getD line ⟨0, []⟩)) :
    (Reader.mk src buf line real pos flag).eofQ = false := by
  have e1 : decide (buf.length ≤ line) = false := decide_eq_false (by omega)
  have e2 : (pos == pyLen (buf.getD line ⟨0, []⟩)) = false := beq_eq_false_iff_ne.mpr h2
  simp only [Reader.eofQ, Reader.curLine]
  rw [e1, e2]
  simp

theorem eofQ_mk_false_flag (src : List (List Char)) (buf : List Line)
    (line real pos : Nat) :
    (Reader.mk src buf line real pos false).eofQ = false := by
  simp [Reader.eofQ]

theorem eofQ_mk_true (src : List (List Char)) (buf : List Line)
    (line real pos : Nat)
    (h2 : line + 1 = buf.length) (h3 : pos = pyLen (buf.getD line ⟨0, []⟩)) :
    (Reader.mk src buf line real pos true).eofQ = true := by
  have e2 : (line + 1 == buf.length) = true := beq_iff_eq.mpr h2
  have e3 : (pos == pyLen (buf.getD line ⟨0, []⟩)) = true := beq_iff_eq.mpr h3
  simp only [Reader.eofQ, Reader.curLine]
  rw [e2, e3]
  simp

/-- C8: for every Reader state whose cursor sits on an available character
(the position invariant every reachable non-EOF reader satisfies: the cursor
line is inside the window and `1 ≤ pos ≤` line length), if `get` returns a
character then `unget` succeeds and the next `get` returns the same
character again — including when the first `get` crossed a line boundary or
refilled the window.  So `get`-`unget`-`get` yields the same character both
times. -/
theorem get_unget_get_roundtrip
    (r : Reader) (c : Char) (r1 : Reader)
    (hl : r.line < r.buffer.length)
    (hp1 : 1 ≤ r.pos)
    (hp2 : r.pos ≤ r.curLine.chars.length)
    (hg : r.get = (some c, r1)) :
    ∃ r2, r1.unget = some r2 ∧ (r2.get).1 = some c ∧ (r.get).1 = some c := by
  rcases r with ⟨src, buf, line, real, pos, flag⟩
  simp only [Reader.curLine] at hp2
  simp only at hl hp1
  have heof : (Reader.mk src buf line real pos flag).eofQ = false :=
    eofQ_mk_false_of_ne _ _ _ _ _ _ hl (by simp only [pyLen]; omega)
  rw [Reader.get, heof] at hg
  simp only [Bool.false_eq_true, if_false, Reader.curLine, beq_iff_eq, pyLen] at hg
  rw [Prod.mk.injEq] at hg
  obtain ⟨hc, hr1⟩ := hg
  have hgfst : ((Reader.mk src buf line real pos flag).get).1 = some c := by
    rw [Reader.get, heof]
    simp only [Bool.false_eq_true, if_false, Reader.curLine]
    exact hc
  by_cases hend : pos = (buf.getD line ⟨0, []⟩).chars.length
  · -- the get consumed the last character of the line
    rw [if_pos (by omega)] at hr1
    by_cases hlast : line + 1 = buf.length
    · -- last line of the window: _read_line runs
      rw [if_pos (by omega)] at hr1
      rw [Reader.readLine] at hr1
      by_cases hflag : flag = true
      · -- source already exhausted and flagged: eofQ holds, no refill
        subst hflag
        rw [if_pos (eofQ_mk_true _ _ _ _ _ hlast (by simp only [pyLen]; omega))] at hr1
        subst hr1
        refine ⟨Reader.mk src buf line real pos true, ?_, ?_, hgfst⟩
        · rw [Reader.unget, if_neg (show ¬ (pos + 1 ≤ 1) by omega)]
          have e : pos + 1 - 1 = pos := by omega
          simp only [e]
        · rw [Reader.get,
            eofQ_mk_false_of_ne _ _ _ _ _ _ hl (by simp only [pyLen]; omega)]
          simp only [Bool.false_eq_true, if_false, Reader.curLine]
          exact hc
      · -- not yet flagged
        have hflag2 : flag = false := by simpa using hflag
        subst hflag2
        rw [if_neg (by rw [eofQ_mk_false_flag]; simp)] at hr1
        rcases src with _ | ⟨l, rest⟩
        · -- empty source: flag set, cursor stays put
          simp only at hr1
          subst hr1
          refine ⟨Reader.mk [] buf line real pos true, ?_, ?_, hgfst⟩
          · rw [Reader.unget, if_neg (show ¬ (pos + 1 ≤ 1) by omega)]
            have e : pos + 1 - 1 = pos := by omega
            simp only [e]
          · rw [Reader.get,
              eofQ_mk_false_of_ne _ _ _ _ _ _ hl (by simp only [pyLen]; omega)]
            simp only [Bool.false_eq_true, if_false, Reader.curLine]
            exact hc
        · -- a fresh line is appended; the window may be trimmed
          simp only at hr1
          subst hr1
          have htrim : 1 ≤ (trimTo2 buf).length := by
            simp only [trimTo2, List.length_drop]
            omega
          refine ⟨Reader.mk rest (trimTo2 buf ++ [Line.mk (real + 1) l])
              ((trimTo2 buf).length - 1) (real + 1)
              (pyLen ((trimTo2 buf ++ [Line.mk (real + 1) l]).getD
                ((trimTo2 buf).length - 1) (Line.mk 0 [])) - 1)
              false, ?_, ?_, hgfst⟩
          · rw [Reader.unget, if_pos (show (1 : Nat) ≤ 1 by omega),
              if_neg (show ¬ ((trimTo2 buf).length = 0) by omega)]
          · have hgl :
                (trimTo2 buf ++ [Line.mk (real + 1) l]).getD ((trimTo2 buf).length - 1) (Line.mk 0 [])
                  = buf.getD line ⟨0, []⟩ := by
              rw [List.getD_append (trimTo2 buf) [Line.mk (real + 1) l] (Line.mk 0 [])
                ((trimTo2 buf).length - 1) (by omega)]
              rw [List.getD_eq_getElem?_getD, List.getD_eq_getElem?_getD]
              unfold trimTo2
              rw [List.getElem?_drop]
              have hidx : buf.length - 2 + ((buf.drop (buf.length - 2)).length - 1) = line := by
                simp only [List.length_drop]
                omega
              rw [hidx]
            rw [Reader.get, eofQ_mk_false_flag]
            simp only [Bool.false_eq_true, if_false, Reader.curLine]
            show some _ = some c
            rw [hgl]
            have e : pyLen (buf.getD line ⟨0, []⟩) - 1 - 1 = pos - 1 := by
              simp only [pyLen]
              omega
            rw [e]
            exact hc
    · -- end of a line that is not the last buffered line: the cursor hops
      rw [if_neg hlast] at hr1
      subst hr1
      refine ⟨Reader.mk src buf (line + 1 - 1) real
          (pyLen (buf.getD (line + 1 - 1) (Line.mk 0 [])) - 1) flag, ?_, ?_, hgfst⟩
      · rw [Reader.unget, if_pos (show (1 : Nat) ≤ 1 by omega),
          if_neg (show ¬ (line + 1 = 0) by omega)]
      · have e0 : line + 1 - 1 = line := by omega
        rw [show (Reader.mk src buf (line + 1 - 1) real
              (pyLen (buf.getD (line + 1 - 1) ⟨0, []⟩) - 1) flag : Reader)
            = Reader.mk src buf line real
              (pyLen (buf.getD line ⟨0, []⟩) - 1) flag by rw [e0]]
        rw [Reader.get,
          eofQ_mk_false_of_ne _ _ _ _ _ _ hl (by simp only [pyLen]; omega)]
        simp only [Bool.false_eq_true, if_false, Reader.curLine]
        show some _ = some c
        have e : pyLen (buf.getD line ⟨0, []⟩) - 1 - 1 = pos - 1 := by
          simp only [pyLen]
          omega
        rw [e]
        exact hc
  · -- mid-line: plain cursor move
    rw [if_neg (by omega)] at hr1
    subst hr1
    refine ⟨Reader.mk src buf line real pos flag, ?_, ?_, hgfst⟩
    · rw [Reader.unget, if_neg (show ¬ (pos + 1 ≤ 1) by omega)]
      have e : pos + 1 - 1 = pos := by omega
      simp only [e]
    · exact hgfst

/-- C8 witness: on the two-line input `"ab\ncd\n"` with the cursor on the
newline ending the first line, `get` returns the newline and crosses the
line boundary (refilling the window with the second line); `unget` rolls
back across the boundary and `get` returns the same character again. -/
theorem get_unget_get_roundtrip_witness :
    ∃ r2,
      (Reader.mk [] [⟨1, ['a', 'b', '\n']⟩, ⟨2, ['c', 'd', '\n']⟩] 1 2 1 false).unget
        = some r2 ∧
      (r2.get).1 = some '\n' ∧
      (({ Reader.ofString "ab\ncd\n" with pos := 3 } : Reader).get).1 = some '\n' :=
  get_unget_get_roundtrip { Reader.ofString "ab\ncd\n" with pos := 3 } '\n'
    (Reader.mk [] [⟨1, ['a', 'b', '\n']⟩, ⟨2, ['c', 'd', '\n']⟩] 1 2 1 false)
    (by decide) (by decide) (by decide) (by decide)

/-! ## Claim C1: consumption is independent of `should_resolve` -/

/-- Two operator stacks whose tokens have pairwise equal types (the
speculative run carries `none` contents, but the types drive the parse). -/
def TTypesEq : List MathToken → List MathToken → Prop :=
  List.Forall₂ (fun a b => a.ttype = b.ttype)

/-- The reduction loop only looks at token types and stack shapes: related
stacks reduce in lockstep. -/
theorem reduceStack_transfer (prec : Nat) :
    ∀ {ops ops' : List MathToken}, TTypesEq ops ops' →
      ∀ (vals vals' : List MathTree), vals.length = vals'.length →
      ∀ o v, reduceStack prec ops vals = .ok (o, v) →
      ∃ o' v', reduceStack prec ops' vals' = .ok (o', v') ∧
        TTypesEq o o' ∧ v.length = v'.length := by
  intro ops ops' hty
  induction hty with
  | nil =>
    intro vals vals' hlen o v h
    simp only [reduceStack] at h
    rw [Except.ok.injEq, Prod.mk.injEq] at h
    obtain ⟨rfl, rfl⟩ := h
    exact ⟨[], vals', by simp [reduceStack], List.Forall₂.nil, hlen⟩
  | @cons a b as bs hab htl ih =>
    intro vals vals' hlen o v h
    simp only [reduceStack] at h
    rcases hp : a.ttype.precedence with _ | p
    · rw [hp] at h
      simp at h
    · rw [hp] at h
      simp only at h
      have hp' : b.ttype.precedence = some p := by rw [← hab]; exact hp
      by_cases hle : p ≤ prec
      · rw [if_pos hle] at h
        rcases vals with _ | ⟨rv, vals⟩
        · simp at h
        rcases vals with _ | ⟨lv, rest⟩
        · simp at h
        rcases vals' with _ | ⟨rv', vals'⟩
        · simp at hlen
        rcases vals' with _ | ⟨lv', rest'⟩
        · simp at hlen
        obtain ⟨o', v', h', hty', hlen'⟩ :=
          ih (.expr a.ttype lv rv :: rest) (.expr b.ttype lv' rv' :: rest')
            (by simpa using hlen) o v h
        refine ⟨o', v', ?_, hty', hlen'⟩
        simp only [reduceStack, hp', if_pos hle]
        exact h'
      · rw [if_neg hle] at h
        rw [Except.ok.injEq, Prod.mk.injEq] at h
        obtain ⟨rfl, rfl⟩ := h
        refine ⟨b :: bs, vals', ?_, List.Forall₂.cons hab htl, hlen⟩
        simp only [reduceStack, hp', if_neg hle]

/-- Resolve-insensitivity of the whole engine, one conjunct per fueled
function: whenever a run with `should_resolve = true` succeeds, the run with
`should_resolve = false` from the same reader state also succeeds and leaves
the reader in exactly the same state (for the math side, with a token of the
same type; for the default-value body, for any accumulator).  Proved for all
fuel levels simultaneously by induction on the fuel: all reader consumption
is performed by flag-independent primitives, and the flag only gates
resolution checks, value computation and quote application. -/
theorem resolve_insensitive (Q : Quotes) (env : Env) : ∀ f : Nat,
    (∀ r v r', (engineF Q env f).expand true r = .ok (v, r') →
      ∃ v', (engineF Q env f).expand false r = .ok (v', r')) ∧
    (∀ r v r', (engineF Q env f).expandVariable true r = .ok (v, r') →
      ∃ v', (engineF Q env f).expandVariable false r = .ok (v', r')) ∧
    (∀ b acc r v r', (engineF Q env f).pucLoop b acc r = .ok (v, r') →
      ∀ acc2, ∃ v', (engineF Q env f).pucLoop false acc2 r = .ok (v', r')) ∧
    (∀ r v r', (engineF Q env f).expandMath true r = .ok (v, r') →
      ∃ v', (engineF Q env f).expandMath false r = .ok (v', r')) ∧
    (∀ ops ops' vals vals' r t r', TTypesEq ops ops' → vals.length = vals'.length →
      (engineF Q env f).procLoop true ops vals r = .ok (t, r') →
      ∃ t', (engineF Q env f).procLoop false ops' vals' r = .ok (t', r')) ∧
    (∀ neg r n tok r', (engineF Q env f).skipSubs true neg r = .ok (n, tok, r') →
      ∃ tok', (engineF Q env f).skipSubs false neg r = .ok (n, tok', r') ∧
        tok'.ttype = tok.ttype) ∧
    (∀ r tok r', (engineF Q env f).mathToken true r = .ok (tok, r') →
      ∃ tok', (engineF Q env f).mathToken false r = .ok (tok', r') ∧
        tok'.ttype = tok.ttype) ∧
    (∀ acc r tok r', (engineF Q env f).alnumLoop true acc r = .ok (tok, r') →
      ∃ tok', (engineF Q env f).alnumLoop false acc r = .ok (tok', r') ∧
        tok'.ttype = tok.ttype) := by
  intro f
  induction f with
  | zero =>
    refine ⟨?_, ?_, ?_, ?_, ?_, ?_, ?_, ?_⟩ <;> intros <;>
      simp_all [engineF, engineBot]
  | succ f ih =>
    obtain ⟨E1, E2, E3, E4, E5, E6, E7, E8⟩ := ih
    refine ⟨?_, ?_, ?_, ?_, ?_, ?_, ?_, ?_⟩
    · -- expand
      intro r v r' h
      simp only [engineF, mkEngine, bind, Except.bind] at h ⊢
      rcases hg : r.get with ⟨c?, r1⟩
      simp only [hg] at h ⊢
      by_cases hc1 : c? = some lbraceChar
      · simp only [if_pos hc1] at h ⊢
        exact E2 _ _ _ h
      · simp only [if_neg hc1] at h ⊢
        by_cases hc2 : c? = some '('
        · simp only [if_pos hc2] at h ⊢
          exact E4 _ _ _ h
        · simp only [if_neg hc2] at h ⊢
          rcases hun : r1.unget with _ | r2
          · simp [hun] at h
          · simp only [hun] at h ⊢
            rcases hn : (engineF Q env f).getNameLoop none r2 with e | pr
            · simp [hn] at h
            · rcases pr with ⟨name?, r3⟩
              simp only [hn] at h ⊢
              simp only [reduceIte] at h ⊢
              rcases name? with _ | n
              · simp at h
              · simp only [Option.some_bind] at h ⊢
                rcases hv : lookupEnv env n with _ | vv
                · simp [hv] at h
                · simp only [hv] at h ⊢
                  rw [Except.ok.injEq, Prod.mk.injEq] at h
                  obtain ⟨rfl, rfl⟩ := h
                  exact ⟨_, rfl⟩
    · -- expandVariable
      intro r v r' h
      simp only [engineF, mkEngine, bind, Except.bind] at h ⊢
      rcases hn : (engineF Q env f).getNameLoop none r with e | pr
      · simp [hn] at h
      · rcases pr with ⟨name?, r1⟩
        simp only [hn] at h ⊢
        rcases hq : quoteScanE (engineF Q env f) r1 with e | tr
        · simp [hq] at h
        · rcases tr with ⟨quotes, c?, r2⟩
          simp only [hq] at h ⊢
          by_cases hc : c? = some '|'
          · simp only [if_pos hc] at h ⊢
            rcases hp : (engineF Q env f).pucLoop
                (true && (name?.bind (lookupEnv env)).isNone) "" r2 with e | dr
            · rw [hp] at h
              simp at h
            · rcases dr with ⟨dflt, r3⟩
              simp only [hp] at h
              obtain ⟨dflt', hp'⟩ := E3 _ _ _ _ _ hp ""
              simp only [Bool.false_and, hp']
              simp only [reduceIte] at h ⊢
              rcases hv : name?.bind (lookupEnv env) with _ | vv
              · rw [hv] at h
                simp only at h
                rw [Except.ok.injEq, Prod.mk.injEq] at h
                obtain ⟨rfl, rfl⟩ := h
                exact ⟨_, rfl⟩
              · rw [hv] at h
                simp only at h
                rcases ha : applyQuotes Q quotes vv with e | v1
                · rw [ha] at h
                  simp at h
                · rw [ha] at h
                  simp only at h
                  rw [Except.ok.injEq, Prod.mk.injEq] at h
                  obtain ⟨rfl, rfl⟩ := h
                  exact ⟨_, rfl⟩
          · simp only [if_neg hc] at h ⊢
            rcases c? with _ | c
            · simp at h
            · simp only at h ⊢
              by_cases hcb : c ≠ rbraceChar
              · rw [if_pos hcb] at h
                simp at h
              · simp only [if_neg hcb] at h ⊢
                simp only [reduceIte] at h ⊢
                rcases name? with _ | n
                · simp at h
                · simp only at h
                  rcases hv : lookupEnv env n with _ | vv
                  · simp only [Option.some_bind, hv] at h
                    simp at h
                  · simp only [Option.some_bind, hv] at h
                    rcases ha : applyQuotes Q quotes vv with e | v1
                    · rw [ha] at h
                      simp at h
                    · rw [ha] at h
                      simp only at h
                      rw [Except.ok.injEq, Prod.mk.injEq] at h
                      obtain ⟨rfl, rfl⟩ := h
                      exact ⟨_, rfl⟩
    · -- pucLoop
      intro b acc r v r' h acc2
      simp only [engineF, mkEngine, bind, Except.bind] at h ⊢
      rcases hg : r.get with ⟨c?, r1⟩
      simp only [hg] at h ⊢
      rcases c? with _ | c
      · simp at h
      · simp only at h ⊢
        by_cases hc1 : c = rbraceChar
        · simp only [if_pos hc1] at h ⊢
          rw [Except.ok.injEq, Prod.mk.injEq] at h
          obtain ⟨rfl, rfl⟩ := h
          exact ⟨_, rfl⟩
        · simp only [if_neg hc1] at h ⊢
          by_cases hc2 : c = '$'
          · simp only [if_pos hc2] at h ⊢
            rcases he : (engineF Q env f).expand b r1 with e | vr
            · simp [he] at h
            · rcases vr with ⟨v1?, r2⟩
              simp only [he] at h
              have he2 : ∃ v2?, (engineF Q env f).expand false r1 = .ok (v2?, r2) := by
                rcases b with _ | _
                · exact ⟨v1?, he⟩
                · exact E1 _ _ _ he
              obtain ⟨v2?, he'⟩ := he2
              simp only [he']
              exact E3 _ _ _ _ _ h _
          · simp only [if_neg hc2] at h ⊢
            by_cases hc3 : c = backslashChar
            · simp only [if_pos hc3] at h ⊢
              rcases hq : r1.getQuoted with e | qr
              · simp [hq] at h
              · rcases qr with ⟨qc, r2⟩
                simp only [hq] at h ⊢
                exact E3 _ _ _ _ _ h _
            · simp only [if_neg hc3] at h ⊢
              exact E3 _ _ _ _ _ h _
    · -- expandMath
      intro r v r' h
      simp only [engineF, mkEngine, bind, Except.bind] at h ⊢
      rcases hp : (engineF Q env f).procLoop true [] [] r with e | tr
      · simp [hp] at h
      · rcases tr with ⟨t, r1⟩
        simp only [hp] at h
        obtain ⟨t', hp'⟩ := E5 [] [] [] [] r t r1 List.Forall₂.nil rfl hp
        simp only [hp']
        simp only [reduceIte] at h ⊢
        rcases hv : getValue t with e | n
        · simp [hv] at h
        · simp only [hv] at h
          rw [Except.ok.injEq, Prod.mk.injEq] at h
          obtain ⟨rfl, rfl⟩ := h
          exact ⟨_, rfl⟩
    · -- procLoop
      intro ops ops' vals vals' r t r' hty hlen h
      simp only [engineF, mkEngine, bind, Except.bind] at h ⊢
      rcases hs : (engineF Q env f).skipSubs true false r with e | nr
      · simp [hs] at h
      · rcases nr with ⟨neg, tok, r1⟩
        simp only [hs] at h
        obtain ⟨tok', hs', htyt⟩ := E6 _ _ _ _ _ hs
        simp only [hs']
        by_cases hL : tok.ttype = MathType.LPAR
        · simp only [if_pos hL] at h
          simp only [if_pos (show tok'.ttype = MathType.LPAR by rw [htyt, hL])]
          rcases hrec : (engineF Q env f).procLoop true [] [] r1 with e | tr2
          · simp [hrec] at h
          · rcases tr2 with ⟨tree, r2⟩
            simp only [hrec] at h
            obtain ⟨tree', hrec'⟩ := E5 [] [] [] [] _ _ _ List.Forall₂.nil rfl hrec
            simp only [hrec']
            rcases ht : (engineF Q env f).mathToken true r2 with e | kr
            · simp [ht] at h
            · rcases kr with ⟨tok2, r3⟩
              simp only [ht] at h
              obtain ⟨tok2', ht', hty2⟩ := E7 _ _ _ ht
              simp only [ht']
              rcases hprec : tok2.ttype.precedence with _ | p
              · simp [hprec] at h
              · simp [hprec] at h
                simp only [show tok2'.ttype.precedence = some p by rw [hty2, hprec]]
                rcases hslv : reduceStack p ops
                    ((if neg then MathTree.expr .SUB (.value (some 0)) tree else tree) :: vals)
                    with e | sv
                · simp [hslv] at h
                · rcases sv with ⟨o, vlist⟩
                  simp only [hslv] at h
                  obtain ⟨o', v2, hR', htyo, hlenv⟩ :=
                    reduceStack_transfer p hty
                      ((if neg then MathTree.expr .SUB (.value (some 0)) tree else tree) :: vals)
                      ((if neg then MathTree.expr .SUB (.value (some 0)) tree' else tree') :: vals')
                      (by simp [hlen]) o vlist hslv
                  simp only [hR']
                  by_cases hRp : tok2.ttype = MathType.RPAR
                  · simp only [if_pos hRp] at h
                    simp only [if_pos (show tok2'.ttype = MathType.RPAR by rw [hty2, hRp])]
                    rcases vlist with _ | ⟨v0, vrest⟩
                    · simp at h
                    · rcases v2 with _ | ⟨v0', vrest'⟩
                      · simp at hlenv
                      · simp only at h ⊢
                        rw [Except.ok.injEq, Prod.mk.injEq] at h
                        obtain ⟨rfl, rfl⟩ := h
                        exact ⟨v0', rfl⟩
                  · simp only [if_neg hRp] at h
                    simp only [if_neg (show ¬ tok2'.ttype = MathType.RPAR by
                      rw [hty2]; exact hRp)]
                    exact E5 _ _ _ _ _ _ _ (List.Forall₂.cons hty2.symm htyo) hlenv h
        · simp only [if_neg hL] at h
          simp only [if_neg (show ¬ tok'.ttype = MathType.LPAR by rw [htyt]; exact hL)]
          by_cases hN : tok.ttype = MathType.NUMBER
          · simp only [if_pos hN] at h
            simp only [if_pos (show tok'.ttype = MathType.NUMBER by rw [htyt, hN])]
            rcases ht : (engineF Q env f).mathToken true r1 with e | kr
            · simp [ht] at h
            · rcases kr with ⟨tok2, r3⟩
              simp only [ht] at h
              obtain ⟨tok2', ht', hty2⟩ := E7 _ _ _ ht
              simp only [ht']
              rcases hprec : tok2.ttype.precedence with _ | p
              · simp [hprec] at h
              · simp [hprec] at h
                simp only [show tok2'.ttype.precedence = some p by rw [hty2, hprec]]
                rcases hslv : reduceStack p ops
                    ((if neg then MathTree.expr .SUB (.value (some 0)) (.value tok.content)
                      else .value tok.content) :: vals) with e | sv
                · simp [hslv] at h
                · rcases sv with ⟨o, vlist⟩
                  simp only [hslv] at h
                  obtain ⟨o', v2, hR', htyo, hlenv⟩ :=
                    reduceStack_transfer p hty
                      ((if neg then MathTree.expr .SUB (.value (some 0)) (.value tok.content)
                        else .value tok.content) :: vals)
                      ((if neg then MathTree.expr .SUB (.value (some 0)) (.value tok'.content)
                        else .value tok'.content) :: vals')
                      (by simp [hlen]) o vlist hslv
                  simp only [hR']
                  by_cases hRp : tok2.ttype = MathType.RPAR
                  · simp only [if_pos hRp] at h
                    simp only [if_pos (show tok2'.ttype = MathType.RPAR by rw [hty2, hRp])]
                    rcases vlist with _ | ⟨v0, vrest⟩
                    · simp at h
                    · rcases v2 with _ | ⟨v0', vrest'⟩
                      · simp at hlenv
                      · simp only at h ⊢
                        rw [Except.ok.injEq, Prod.mk.injEq] at h
                        obtain ⟨rfl, rfl⟩ := h
                        exact ⟨v0', rfl⟩
                  · simp only [if_neg hRp] at h
                    simp only [if_neg (show ¬ tok2'.ttype = MathType.RPAR by
                      rw [hty2]; exact hRp)]
                    exact E5 _ _ _ _ _ _ _ (List.Forall₂.cons hty2.symm htyo) hlenv h
          · simp only [if_neg hN] at h
            simp at h
    · -- skipSubs
      intro neg r n tok r' h
      simp only [engineF, mkEngine, bind, Except.bind] at h ⊢
      rcases ht : (engineF Q env f).mathToken true r with e | kr
      · simp [ht] at h
      · rcases kr with ⟨tok1, r1⟩
        simp only [ht] at h
        obtain ⟨tok1', ht', hty1⟩ := E7 _ _ _ ht
        simp only [ht']
        by_cases hS : tok1.ttype = MathType.SUB
        · simp only [if_pos hS] at h
          simp only [if_pos (show tok1'.ttype = MathType.SUB by rw [hty1, hS])]
          exact E6 _ _ _ _ _ h
        · simp only [if_neg hS] at h
          simp only [if_neg (show ¬ tok1'.ttype = MathType.SUB by rw [hty1]; exact hS)]
          rw [Except.ok.injEq, Prod.mk.injEq, Prod.mk.injEq] at h
          obtain ⟨rfl, rfl, rfl⟩ := h
          exact ⟨tok1', rfl, hty1⟩
    · -- mathToken
      intro r tok r' h
      simp only [engineF, mkEngine, bind, Except.bind] at h ⊢
      rcases hgt : (engineF Q env f).mathGet r with e | cr
      · simp [hgt] at h
      · rcases cr with ⟨c, r1⟩
        simp only [hgt] at h ⊢
        rcases hl : List.lookup c singleCharMathTokens with _ | tt
        · simp only [hl] at h ⊢
          by_cases hA : pyIsAlnum c = true
          · simp only [if_pos hA] at h ⊢
            exact E8 _ _ _ _ h
          · simp only [if_neg hA] at h ⊢
            by_cases hD : c = '$'
            · simp only [if_pos hD] at h ⊢
              rcases he : (engineF Q env f).expand true r1 with e | vr
              · simp [he] at h
              · rcases vr with ⟨content?, r2⟩
                simp only [he] at h
                obtain ⟨c2?, he'⟩ := E1 _ _ _ he
                simp only [he']
                simp only [reduceIte] at h ⊢
                rcases content? with _ | str
                · simp at h
                · simp only at h
                  rcases hai : asInt (String.mk (str.toList.dropWhile (fun ch => ch = '-')))
                      with _ | n
                  · rw [hai] at h
                    by_cases hpar :
                        (str.length - (str.toList.dropWhile (fun ch => ch = '-')).length) % 2 = 1
                    · rw [if_pos hpar] at h
                      simp at h
                    · rw [if_neg hpar] at h
                      simp at h
                  · rw [hai] at h
                    simp only at h
                    rw [Except.ok.injEq, Prod.mk.injEq] at h
                    obtain ⟨rfl, rfl⟩ := h
                    exact ⟨⟨.NUMBER, none⟩, rfl, rfl⟩
            · rw [if_neg hD] at h
              simp at h
        · simp only [hl] at h ⊢
          rw [Except.ok.injEq, Prod.mk.injEq] at h
          obtain ⟨rfl, rfl⟩ := h
          exact ⟨⟨tt, none⟩, rfl, rfl⟩
    · -- alnumLoop
      intro acc r tok r' h
      simp only [engineF, mkEngine, bind, Except.bind] at h ⊢
      rcases hgt : (engineF Q env f).mathGet r with e | cr
      · simp [hgt] at h
      · rcases cr with ⟨c, r1⟩
        simp only [hgt] at h ⊢
        by_cases hA : pyIsAlnum c = true
        · simp only [if_pos hA] at h ⊢
          exact E8 _ _ _ _ h
        · simp only [if_neg hA] at h ⊢
          rcases hu : r1.unget with _ | r2
          · simp [hu] at h
          · simp only [hu] at h ⊢
            simp only [reduceIte] at h ⊢
            rcases hai : asInt acc with _ | n
            · simp [hai] at h
            · simp only [hai] at h
              rw [Except.ok.injEq, Prod.mk.injEq] at h
              obtain ⟨rfl, rfl⟩ := h
              exact ⟨⟨.NUMBER, none⟩, rfl, rfl⟩

/-- C1: for every input and reader state on which a `$`-expansion construct
(bare name, braced form, or parenthesized arithmetic) succeeds with
`should_resolve = true`, running `Expansion.expand` with
`should_resolve = false` from the same state also succeeds and leaves the
shared reader cursor in exactly the same state: both runs consume exactly
the same characters and end immediately past the construct. -/
theorem expand_consumption_resolve_independent
    (Q : Quotes) (env : Env) (f : Nat) (r : Reader) (v : Option String) (r' : Reader)
    (h : expandF Q env f true r = .ok (v, r')) :
    ∃ v', expandF Q env f false r = .ok (v', r') :=
  (resolve_insensitive Q env f).1 r v r' h

/-- The input of the C1 witness: a braced expansion with quotes-free default
body containing a nested expansion, as seen right after the `$`. -/
def c1input : String := "\x7bFOO|12$\x7bABC\x7d3\x7d"

/-- C1 witness: expanding `${FOO|12${ABC}3}` with `FOO = "BAR"` resolves to
`BAR` with the cursor at EOF; the speculative run reaches the very same
cursor position. -/
theorem expand_consumption_resolve_independent_witness :
    ∃ v', expandF DEFAULT_QUOTES [("FOO", "BAR")] 60 false (Reader.ofString c1input)
      = .ok (v', { Reader.ofString c1input with pos := 16, eofFlag := true }) :=
  expand_consumption_resolve_independent DEFAULT_QUOTES [("FOO", "BAR")] 60
    (Reader.ofString c1input) (some "BAR")
    { Reader.ofString c1input with pos := 16, eofFlag := true }
    (by decide)

end Expanding
